import Mathlib

/-!
# benthos-lab `lib/config/add.go`

A shallow embedding of the six insertion functions of `lib/config/add.go`
(`AddInput`, `AddProcessor`, `AddCondition`, `AddOutput`, `AddCache`,
`AddRatelimit`) and theorems about them.

The functions mutate a `*config.Type` in place and return a Go `error`.  Here
each of them is a pure function from the tree before the call to a pair of the
returned error (`none` for `nil`) and the tree after the call.

The benthos library packages (`input`, `output`, `processor`, `condition`,
`cache`, `ratelimit`, `config`) are imported by `add.go`; what `add.go` uses of
them (the `Constructors` tables, the `NewConfig` factories, the `TypeBroker` and
`TypeFilterParts` constants) is a parameter of the embedding.  Of the
configuration structs only the fields that `add.go` reads or writes are spelled
out; all remaining fields of a struct are carried along in one component
`fields : F`.
-/

set_option autoImplicit false

/-! ## Go maps with string keys -/

/-- A Go `map[string]V` that has been allocated (as the maps of a tree made by
`config.New()` are; an assignment into a `nil` map does not return): its
entries, each key at most once in a map built with `GoMap.set` from `[]`. -/
abbrev GoMap (V : Type) := List (String × V)

namespace GoMap

variable {V : Type}

/-- The second result of `_, exists := m[k]`. -/
def has (m : GoMap V) (k : String) : Bool :=
  m.any (fun e => e.1 == k)

/-- The value of `m[k]`, when `k` is a key. -/
def get? (m : GoMap V) (k : String) : Option V :=
  (m.find? (fun e => e.1 == k)).map Prod.snd

/-- The keys of the map. -/
def keys (m : GoMap V) : List String :=
  m.map Prod.fst

/-- The statement `m[k] = v`: the entry under `k` is overwritten when there is
one, and a new entry is added otherwise. -/
def set : GoMap V → String → V → GoMap V
  | [], k, v => [(k, v)]
  | e :: m, k, v => if e.1 == k then (k, v) :: m else e :: set m k v

end GoMap

/-! ## The configuration structs -/

namespace input

/-- The struct `input.BrokerConfig` over the element type `C` of its `Inputs`
slice. -/
structure BrokerConfig (C F : Type) where
  /-- The field `Inputs`. -/
  Inputs : List C
  /-- The remaining fields. -/
  fields : F

/-- The struct `input.Config`: `Type`, `Broker`, and the remaining fields. -/
inductive Config (F : Type) where
  | mk (Type_ : String) (Broker : BrokerConfig (Config F) F) (fields : F) : Config F

namespace Config

variable {F : Type}

/-- The field `Type`. -/
def Type_ : Config F → String
  | mk t _ _ => t

/-- The field `Broker`. -/
def Broker : Config F → BrokerConfig (Config F) F
  | mk _ b _ => b

/-- The remaining fields. -/
def fields : Config F → F
  | mk _ _ f => f

/-- The assignment `c.Type = t`. -/
def setType : Config F → String → Config F
  | mk _ b f, t => mk t b f

/-- The assignment `c.Broker.Inputs = l`. -/
def setBrokerInputs : Config F → List (Config F) → Config F
  | mk t b f, l => mk t { b with Inputs := l } f

end Config

/-- What `add.go` uses of the package `input`. -/
structure Pkg (F : Type) where
  /-- The keys of the table `input.Constructors`. -/
  Constructors : List String
  /-- The constant `input.TypeBroker`. -/
  TypeBroker : String
  /-- The value returned by `input.NewConfig()`. -/
  NewConfig : Config F

end input

namespace output

/-- The struct `output.BrokerConfig` over the element type `C` of its `Outputs`
slice. -/
structure BrokerConfig (C F : Type) where
  /-- The field `Outputs`. -/
  Outputs : List C
  /-- The remaining fields. -/
  fields : F

/-- The struct `output.Config`: `Type`, `Broker`, and the remaining fields. -/
inductive Config (F : Type) where
  | mk (Type_ : String) (Broker : BrokerConfig (Config F) F) (fields : F) : Config F

namespace Config

variable {F : Type}

/-- The field `Type`. -/
def Type_ : Config F → String
  | mk t _ _ => t

/-- The field `Broker`. -/
def Broker : Config F → BrokerConfig (Config F) F
  | mk _ b _ => b

/-- The remaining fields. -/
def fields : Config F → F
  | mk _ _ f => f

/-- The assignment `c.Type = t`. -/
def setType : Config F → String → Config F
  | mk _ b f, t => mk t b f

/-- The assignment `c.Broker.Outputs = l`. -/
def setBrokerOutputs : Config F → List (Config F) → Config F
  | mk t b f, l => mk t { b with Outputs := l } f

end Config

/-- What `add.go` uses of the package `output`. -/
structure Pkg (F : Type) where
  /-- The keys of the table `output.Constructors`. -/
  Constructors : List String
  /-- The constant `output.TypeBroker`. -/
  TypeBroker : String
  /-- The value returned by `output.NewConfig()`. -/
  NewConfig : Config F

end output

namespace condition

/-- The struct `condition.Config`: `Type` and the remaining fields. -/
structure Config (F : Type) where
  /-- The field `Type`. -/
  Type_ : String
  /-- The remaining fields. -/
  fields : F

/-- What `add.go` uses of the package `condition`. -/
structure Pkg (F : Type) where
  /-- The keys of the table `condition.Constructors`. -/
  Constructors : List String
  /-- The value returned by `condition.NewConfig()`. -/
  NewConfig : Config F

end condition

namespace processor

/-- The struct `processor.FilterPartsConfig`, which embeds a
`condition.Config`. -/
structure FilterPartsConfig (F : Type) where
  /-- The embedded `condition.Config`. -/
  Config : condition.Config F

/-- The struct `processor.Config`: `Type`, `FilterParts`, and the remaining
fields. -/
structure Config (F : Type) where
  /-- The field `Type`. -/
  Type_ : String
  /-- The field `FilterParts`. -/
  FilterParts : FilterPartsConfig F
  /-- The remaining fields. -/
  fields : F

/-- What `add.go` uses of the package `processor`. -/
structure Pkg (F : Type) where
  /-- The keys of the table `processor.Constructors`. -/
  Constructors : List String
  /-- The constant `processor.TypeFilterParts`. -/
  TypeFilterParts : String
  /-- The value returned by `processor.NewConfig()`. -/
  NewConfig : Config F

end processor

namespace cache

/-- The struct `cache.Config`: `Type` and the remaining fields. -/
structure Config (F : Type) where
  /-- The field `Type`. -/
  Type_ : String
  /-- The remaining fields. -/
  fields : F

/-- What `add.go` uses of the package `cache`. -/
structure Pkg (F : Type) where
  /-- The keys of the table `cache.Constructors`. -/
  Constructors : List String
  /-- The value returned by `cache.NewConfig()`. -/
  NewConfig : Config F

end cache

namespace ratelimit

/-- The struct `ratelimit.Config`: `Type` and the remaining fields. -/
structure Config (F : Type) where
  /-- The field `Type`. -/
  Type_ : String
  /-- The remaining fields. -/
  fields : F

/-- What `add.go` uses of the package `ratelimit`. -/
structure Pkg (F : Type) where
  /-- The keys of the table `ratelimit.Constructors`. -/
  Constructors : List String
  /-- The value returned by `ratelimit.NewConfig()`. -/
  NewConfig : Config F

end ratelimit

namespace pipeline

/-- The struct `pipeline.Config`: `Processors` and the remaining fields. -/
structure Config (F : Type) where
  /-- The field `Processors`. -/
  Processors : List (processor.Config F)
  /-- The remaining fields. -/
  fields : F

end pipeline

namespace manager

/-- The struct `manager.Config`: `Caches`, `RateLimits` and the remaining
fields. -/
structure Config (F : Type) where
  /-- The field `Caches`. -/
  Caches : GoMap (cache.Config F)
  /-- The field `RateLimits`. -/
  RateLimits : GoMap (ratelimit.Config F)
  /-- The remaining fields. -/
  fields : F

end manager

namespace config

/-- The struct `config.Type` of benthos, the configuration tree: `Input`,
`Pipeline`, `Output`, `Manager`, and the remaining fields. -/
structure Type_ (F : Type) where
  /-- The field `Input`. -/
  Input : input.Config F
  /-- The field `Pipeline`. -/
  Pipeline : pipeline.Config F
  /-- The field `Output`. -/
  Output : output.Config F
  /-- The field `Manager`. -/
  Manager : manager.Config F
  /-- The remaining fields. -/
  fields : F

/-- What a call returns: the Go `error` (`none` for `nil`) and the tree that
`conf` points to after the call. -/
structure Ret (F : Type) where
  /-- The returned error, by its message. -/
  err : Option String
  /-- The tree after the call. -/
  conf : Type_ F

variable {F : Type}

/-- The function `AddInput` of `add.go`. -/
def AddInput (p : input.Pkg F) (cType : String) (conf : Type_ F) : Ret F :=
  if cType ≠ "benthos_lab" ∧ cType ∉ p.Constructors then
    ⟨some ("input type '" ++ cType ++ "' not recognised"), conf⟩
  else
    let inputConf := p.NewConfig.setType cType
    if conf.Input.Type_ ≠ p.TypeBroker then
      let currentInput := conf.Input
      let brokerInput := p.NewConfig.setType p.TypeBroker
      let brokerInput := brokerInput.setBrokerInputs (brokerInput.Broker.Inputs ++ [currentInput])
      let conf := { conf with Input := brokerInput }
      if cType = p.TypeBroker then
        ⟨none, conf⟩
      else
        ⟨none, { conf with
          Input := conf.Input.setBrokerInputs (conf.Input.Broker.Inputs ++ [inputConf]) }⟩
    else
      ⟨none, { conf with
        Input := conf.Input.setBrokerInputs (conf.Input.Broker.Inputs ++ [inputConf]) }⟩

/-- The function `AddOutput` of `add.go`. -/
def AddOutput (p : output.Pkg F) (cType : String) (conf : Type_ F) : Ret F :=
  if cType ≠ "benthos_lab" ∧ cType ∉ p.Constructors then
    ⟨some ("output type '" ++ cType ++ "' not recognised"), conf⟩
  else
    let outputConf := p.NewConfig.setType cType
    if conf.Output.Type_ ≠ p.TypeBroker then
      let currentOutput := conf.Output
      let brokerOutput := p.NewConfig.setType p.TypeBroker
      let brokerOutput :=
        brokerOutput.setBrokerOutputs (brokerOutput.Broker.Outputs ++ [currentOutput])
      let conf := { conf with Output := brokerOutput }
      if cType = p.TypeBroker then
        ⟨none, conf⟩
      else
        ⟨none, { conf with
          Output := conf.Output.setBrokerOutputs (conf.Output.Broker.Outputs ++ [outputConf]) }⟩
    else
      ⟨none, { conf with
        Output := conf.Output.setBrokerOutputs (conf.Output.Broker.Outputs ++ [outputConf]) }⟩

/-- The function `AddProcessor` of `add.go`. -/
def AddProcessor (p : processor.Pkg F) (cType : String) (conf : Type_ F) : Ret F :=
  if cType ∉ p.Constructors then
    ⟨some ("processor type '" ++ cType ++ "' not recognised"), conf⟩
  else
    let procConf := { p.NewConfig with Type_ := cType }
    ⟨none, { conf with
      Pipeline := { conf.Pipeline with Processors := conf.Pipeline.Processors ++ [procConf] } }⟩

/-- The function `AddCondition` of `add.go`. -/
def AddCondition (c : condition.Pkg F) (p : processor.Pkg F) (cType : String)
    (conf : Type_ F) : Ret F :=
  if cType ∉ c.Constructors then
    ⟨some ("condition type '" ++ cType ++ "' not recognised"), conf⟩
  else
    let condConf := { c.NewConfig with Type_ := cType }
    let procConf := { p.NewConfig with Type_ := p.TypeFilterParts }
    let procConf := { procConf with FilterParts := { procConf.FilterParts with Config := condConf } }
    ⟨none, { conf with
      Pipeline := { conf.Pipeline with Processors := conf.Pipeline.Processors ++ [procConf] } }⟩

/-- The candidate key of iteration `i` of the loop of `AddCache` and of
`AddRatelimit`: `"example"` when `i == 0`, and `fmt.Sprintf("example%v", i)`
otherwise. -/
def candidate (i : Nat) : String :=
  if i = 0 then "example" else "example" ++ toString i

/-- The loop `for i := 0; i < 10000; i++` of `AddCache` and of `AddRatelimit`,
with `n` iterations left and the loop variable at `i`: the value of `cacheID`
(of `ratelimitID`) after the loop, which is the zero value `""` when no
iteration reaches the `break`. -/
def scanID {V : Type} (m : GoMap V) : Nat → Nat → String
  | 0, _ => ""
  | n + 1, i => if m.has (candidate i) then scanID m n (i + 1) else candidate i

/-- The function `AddCache` of `add.go`. -/
def AddCache (p : cache.Pkg F) (cType : String) (conf : Type_ F) : Ret F :=
  if cType ∉ p.Constructors then
    ⟨some ("cache type '" ++ cType ++ "' not recognised"), conf⟩
  else
    let cacheConf := { p.NewConfig with Type_ := cType }
    let cacheID := scanID conf.Manager.Caches 10000 0
    if cacheID.utf8ByteSize = 0 then
      ⟨some "what the hell are you doing?", conf⟩
    else
      ⟨none, { conf with
        Manager := { conf.Manager with Caches := conf.Manager.Caches.set cacheID cacheConf } }⟩

/-- The function `AddRatelimit` of `add.go`. -/
def AddRatelimit (p : ratelimit.Pkg F) (cType : String) (conf : Type_ F) : Ret F :=
  if cType ∉ p.Constructors then
    ⟨some ("ratelimit type '" ++ cType ++ "' not recognised"), conf⟩
  else
    let ratelimitConf := { p.NewConfig with Type_ := cType }
    let ratelimitID := scanID conf.Manager.RateLimits 10000 0
    if ratelimitID.utf8ByteSize = 0 then
      ⟨some "what the hell are you doing?", conf⟩
    else
      ⟨none, { conf with
        Manager := { conf.Manager with
          RateLimits := conf.Manager.RateLimits.set ratelimitID ratelimitConf } }⟩

end config

/-! ## Calls in sequence -/

namespace config

variable {F : Type}

/-- The calls `f(t1, conf); f(t2, conf); ...` made in this order on one tree,
`f` one of the six functions of `add.go`: what each call returns. -/
def calls (f : String → Type_ F → Ret F) : List String → Type_ F → List (Ret F)
  | [], _ => []
  | t :: ts, conf => f t conf :: calls f ts (f t conf).conf

/-- The tree after the calls `f(t1, conf); f(t2, conf); ...` made in this
order. -/
def after (f : String → Type_ F → Ret F) : List String → Type_ F → Type_ F
  | [], conf => conf
  | t :: ts, conf => after f ts (f t conf).conf

/-- The number that a string of decimal digits denotes. -/
def decimalValue (cs : List Char) : Nat :=
  cs.foldl (fun a c => 10 * a + (c.toNat - 48)) 0

end config

/-! ## The key generation of the specification -/

namespace KeyedInserter

/-- The candidate keys as the specification lists them, in its words "the fixed
deterministic sequence `"example"`, `"example1"`, `"example2"`, ... up to and
including `"example9999"` (10,000 candidates total, including the zero-suffix
form)". -/
def candidates : List String :=
  "example" :: (List.range' 1 9999).map (fun i => "example" ++ toString i)

/-- The key selection of the specification, in its words "select the first
candidate not already present as a key in the target mapping"; `none` when all
candidates are occupied. -/
def selectKey (keys : List String) : Option String :=
  candidates.find? (fun c => !keys.contains c)

end KeyedInserter

/-! ## A concrete library and concrete trees -/

namespace Example

/-- The remaining fields of a struct, as named values. -/
abbrev Fields := List (String × String)

/-- An `input` package: five registered types, `"benthos_lab"` not among
them. -/
def inputs : input.Pkg Fields :=
  ⟨["broker", "file", "http_server", "kafka", "stdin"], "broker",
    .mk "stdin" ⟨[], [("copies", "1")]⟩ [("stdin.multipart", "false")]⟩

/-- An `output` package: five registered types, `"benthos_lab"` not among
them. -/
def outputs : output.Pkg Fields :=
  ⟨["broker", "file", "http_client", "kafka", "stdout"], "broker",
    .mk "stdout" ⟨[], [("copies", "1"), ("pattern", "fan_out")]⟩ [("stdout.delimiter", "")]⟩

/-- A `condition` package. -/
def conditions : condition.Pkg Fields :=
  ⟨["jmespath", "static", "text"], ⟨"text", [("text.operator", "equals_cs")]⟩⟩

/-- A `processor` package. -/
def processors : processor.Pkg Fields :=
  ⟨["bounds_check", "filter_parts", "jmespath"], "filter_parts",
    ⟨"bounds_check", ⟨⟨"text", [("text.operator", "equals_cs")]⟩⟩,
      [("bounds_check.max_parts", "100")]⟩⟩

/-- A `cache` package. -/
def caches : cache.Pkg Fields :=
  ⟨["memcached", "memory", "redis"], ⟨"memory", [("memory.ttl", "300")]⟩⟩

/-- A `ratelimit` package. -/
def ratelimits : ratelimit.Pkg Fields :=
  ⟨["local"], ⟨"local", [("local.count", "1000")]⟩⟩

/-- A tree with a `kafka` input, a `stdout` output, one processor, and no
caches or rate limits. -/
def tree : config.Type_ Fields where
  Input := .mk "kafka" ⟨[], [("copies", "1")]⟩ [("kafka.topic", "orders")]
  Pipeline := ⟨[⟨"jmespath", ⟨⟨"text", []⟩⟩, [("jmespath.query", "a.b")]⟩], [("threads", "1")]⟩
  Output := .mk "stdout" ⟨[], [("copies", "1")]⟩ [("stdout.delimiter", ";")]
  Manager := ⟨[], [], []⟩
  fields := [("logger.level", "INFO")]

/-- A tree whose input and output are brokers of two endpoints each. -/
def brokered : config.Type_ Fields where
  Input := .mk "broker"
    ⟨[.mk "kafka" ⟨[], []⟩ [("kafka.topic", "orders")], .mk "file" ⟨[], []⟩ []],
      [("copies", "2")]⟩ [("processors", "none")]
  Pipeline := ⟨[], [("threads", "1")]⟩
  Output := .mk "broker"
    ⟨[.mk "stdout" ⟨[], []⟩ [], .mk "file" ⟨[], []⟩ [("file.path", "out.txt")]],
      [("pattern", "round_robin")]⟩ []
  Manager := ⟨[], [], []⟩
  fields := []

/-- A tree whose caches are `example` and `example1`, and whose only rate limit
is `example1`. -/
def keyed : config.Type_ Fields where
  Input := .mk "stdin" ⟨[], []⟩ []
  Pipeline := ⟨[], []⟩
  Output := .mk "stdout" ⟨[], []⟩ []
  Manager := ⟨[("example", ⟨"redis", [("redis.url", "tcp://localhost:6379")]⟩),
      ("example1", ⟨"memory", []⟩)],
    [("example1", ⟨"local", []⟩)], []⟩
  fields := []

/-- A tree whose rate limits have the keys of the caches of `keyed`, in another
order and with other declarations. -/
def mirrored : config.Type_ Fields where
  Input := .mk "kafka" ⟨[], []⟩ []
  Pipeline := ⟨[], []⟩
  Output := .mk "file" ⟨[], []⟩ []
  Manager := ⟨[], [("example1", ⟨"local", [("local.count", "5")]⟩),
      ("example", ⟨"local", [("local.interval", "1s")]⟩)], []⟩
  fields := []

/-- A map that holds every one of the 10000 candidate keys. -/
def fullMap {V : Type} (v : V) : GoMap V :=
  (List.range 10000).map (fun i => (config.candidate i, v))

/-- A tree whose caches and rate limits hold all 10000 candidate keys. -/
def full : config.Type_ Fields where
  Input := .mk "stdin" ⟨[], []⟩ []
  Pipeline := ⟨[], []⟩
  Output := .mk "stdout" ⟨[], []⟩ []
  Manager := ⟨fullMap ⟨"memory", []⟩, fullMap ⟨"local", []⟩, []⟩
  fields := []

end Example

/-! ## Field access after an assignment -/

namespace input.Config

variable {F : Type}

@[simp] theorem Type_setType (c : Config F) (t : String) : (c.setType t).Type_ = t := by
  cases c; rfl

@[simp] theorem Broker_setType (c : Config F) (t : String) : (c.setType t).Broker = c.Broker := by
  cases c; rfl

@[simp] theorem fields_setType (c : Config F) (t : String) : (c.setType t).fields = c.fields := by
  cases c; rfl

@[simp] theorem Type_setBrokerInputs (c : Config F) (l : List (Config F)) :
    (c.setBrokerInputs l).Type_ = c.Type_ := by
  cases c; rfl

@[simp] theorem Inputs_setBrokerInputs (c : Config F) (l : List (Config F)) :
    (c.setBrokerInputs l).Broker.Inputs = l := by
  cases c; rfl

@[simp] theorem Broker_fields_setBrokerInputs (c : Config F) (l : List (Config F)) :
    (c.setBrokerInputs l).Broker.fields = c.Broker.fields := by
  cases c; rfl

@[simp] theorem fields_setBrokerInputs (c : Config F) (l : List (Config F)) :
    (c.setBrokerInputs l).fields = c.fields := by
  cases c; rfl

end input.Config

namespace output.Config

variable {F : Type}

@[simp] theorem Type_setType_output (c : Config F) (t : String) : (c.setType t).Type_ = t := by
  cases c; rfl

@[simp] theorem Broker_setType_output (c : Config F) (t : String) : (c.setType t).Broker = c.Broker := by
  cases c; rfl

@[simp] theorem fields_setType_output (c : Config F) (t : String) : (c.setType t).fields = c.fields := by
  cases c; rfl

@[simp] theorem Type_setBrokerOutputs (c : Config F) (l : List (Config F)) :
    (c.setBrokerOutputs l).Type_ = c.Type_ := by
  cases c; rfl

@[simp] theorem Outputs_setBrokerOutputs (c : Config F) (l : List (Config F)) :
    (c.setBrokerOutputs l).Broker.Outputs = l := by
  cases c; rfl

@[simp] theorem Broker_fields_setBrokerOutputs (c : Config F) (l : List (Config F)) :
    (c.setBrokerOutputs l).Broker.fields = c.Broker.fields := by
  cases c; rfl

@[simp] theorem fields_setBrokerOutputs (c : Config F) (l : List (Config F)) :
    (c.setBrokerOutputs l).fields = c.fields := by
  cases c; rfl

end output.Config

/-! ## The three paths of `AddInput` and of `AddOutput` -/

namespace config

variable {F : Type}

/-- The type check of `AddInput` fails: the name is neither the sentinel nor in
the table. -/
theorem AddInput_rejected (p : input.Pkg F) (cType : String) (conf : Type_ F)
    (hs : cType ≠ "benthos_lab") (hr : cType ∉ p.Constructors) :
    AddInput p cType conf = ⟨some ("input type '" ++ cType ++ "' not recognised"), conf⟩ := by
  simp [AddInput, hs, hr]

/-- The slot is not a broker and the inserted type is not the broker type. -/
theorem AddInput_promote (p : input.Pkg F) (cType : String) (conf : Type_ F)
    (hv : cType = "benthos_lab" ∨ cType ∈ p.Constructors)
    (hD : conf.Input.Type_ ≠ p.TypeBroker) (hE : cType ≠ p.TypeBroker) :
    AddInput p cType conf = ⟨none, { conf with
      Input := (p.NewConfig.setType p.TypeBroker).setBrokerInputs
        ((p.NewConfig.Broker.Inputs ++ [conf.Input]) ++ [p.NewConfig.setType cType]) }⟩ := by
  have hv2 : ¬ (cType ≠ "benthos_lab" ∧ cType ∉ p.Constructors) := by
    rintro ⟨h1, h2⟩
    rcases hv with h | h
    · exact h1 h
    · exact h2 h
  unfold AddInput
  rw [if_neg hv2]
  simp only [if_pos hD, if_neg hE]
  congr 2
  cases hn : p.NewConfig
  rfl

/-- The slot is not a broker and the inserted type is the broker type. -/
theorem AddInput_wrap (p : input.Pkg F) (conf : Type_ F)
    (hv : p.TypeBroker = "benthos_lab" ∨ p.TypeBroker ∈ p.Constructors)
    (hD : conf.Input.Type_ ≠ p.TypeBroker) :
    AddInput p p.TypeBroker conf = ⟨none, { conf with
      Input := (p.NewConfig.setType p.TypeBroker).setBrokerInputs
        (p.NewConfig.Broker.Inputs ++ [conf.Input]) }⟩ := by
  have hv2 : ¬ (p.TypeBroker ≠ "benthos_lab" ∧ p.TypeBroker ∉ p.Constructors) := by
    rintro ⟨h1, h2⟩
    rcases hv with h | h
    · exact h1 h
    · exact h2 h
  unfold AddInput
  rw [if_neg hv2]
  simp only [if_pos hD, if_true]
  congr 2
  cases hn : p.NewConfig
  rfl

/-- The slot is a broker already. -/
theorem AddInput_append (p : input.Pkg F) (cType : String) (conf : Type_ F)
    (hv : cType = "benthos_lab" ∨ cType ∈ p.Constructors)
    (hD : conf.Input.Type_ = p.TypeBroker) :
    AddInput p cType conf = ⟨none, { conf with
      Input := conf.Input.setBrokerInputs
        (conf.Input.Broker.Inputs ++ [p.NewConfig.setType cType]) }⟩ := by
  have hv2 : ¬ (cType ≠ "benthos_lab" ∧ cType ∉ p.Constructors) := by
    rintro ⟨h1, h2⟩
    rcases hv with h | h
    · exact h1 h
    · exact h2 h
  unfold AddInput
  rw [if_neg hv2]
  simp only [hD, ne_eq, not_true_eq_false, if_false]

/-- The type check of `AddOutput` fails: the name is neither the sentinel nor in
the table. -/
theorem AddOutput_rejected (p : output.Pkg F) (cType : String) (conf : Type_ F)
    (hs : cType ≠ "benthos_lab") (hr : cType ∉ p.Constructors) :
    AddOutput p cType conf = ⟨some ("output type '" ++ cType ++ "' not recognised"), conf⟩ := by
  simp [AddOutput, hs, hr]

/-- The slot is not a broker and the inserted type is not the broker type. -/
theorem AddOutput_promote (p : output.Pkg F) (cType : String) (conf : Type_ F)
    (hv : cType = "benthos_lab" ∨ cType ∈ p.Constructors)
    (hD : conf.Output.Type_ ≠ p.TypeBroker) (hE : cType ≠ p.TypeBroker) :
    AddOutput p cType conf = ⟨none, { conf with
      Output := (p.NewConfig.setType p.TypeBroker).setBrokerOutputs
        ((p.NewConfig.Broker.Outputs ++ [conf.Output]) ++ [p.NewConfig.setType cType]) }⟩ := by
  have hv2 : ¬ (cType ≠ "benthos_lab" ∧ cType ∉ p.Constructors) := by
    rintro ⟨h1, h2⟩
    rcases hv with h | h
    · exact h1 h
    · exact h2 h
  unfold AddOutput
  rw [if_neg hv2]
  simp only [if_pos hD, if_neg hE]
  congr 2
  cases hn : p.NewConfig
  rfl

/-- The slot is not a broker and the inserted type is the broker type. -/
theorem AddOutput_wrap (p : output.Pkg F) (conf : Type_ F)
    (hv : p.TypeBroker = "benthos_lab" ∨ p.TypeBroker ∈ p.Constructors)
    (hD : conf.Output.Type_ ≠ p.TypeBroker) :
    AddOutput p p.TypeBroker conf = ⟨none, { conf with
      Output := (p.NewConfig.setType p.TypeBroker).setBrokerOutputs
        (p.NewConfig.Broker.Outputs ++ [conf.Output]) }⟩ := by
  have hv2 : ¬ (p.TypeBroker ≠ "benthos_lab" ∧ p.TypeBroker ∉ p.Constructors) := by
    rintro ⟨h1, h2⟩
    rcases hv with h | h
    · exact h1 h
    · exact h2 h
  unfold AddOutput
  rw [if_neg hv2]
  simp only [if_pos hD, if_true]
  congr 2
  cases hn : p.NewConfig
  rfl

/-- The slot is a broker already. -/
theorem AddOutput_append (p : output.Pkg F) (cType : String) (conf : Type_ F)
    (hv : cType = "benthos_lab" ∨ cType ∈ p.Constructors)
    (hD : conf.Output.Type_ = p.TypeBroker) :
    AddOutput p cType conf = ⟨none, { conf with
      Output := conf.Output.setBrokerOutputs
        (conf.Output.Broker.Outputs ++ [p.NewConfig.setType cType]) }⟩ := by
  have hv2 : ¬ (cType ≠ "benthos_lab" ∧ cType ∉ p.Constructors) := by
    rintro ⟨h1, h2⟩
    rcases hv with h | h
    · exact h1 h
    · exact h2 h
  unfold AddOutput
  rw [if_neg hv2]
  simp only [hD, ne_eq, not_true_eq_false, if_false]

end config

namespace config
variable {F : Type}

theorem candidate_size (i : Nat) : (candidate i).utf8ByteSize ≠ 0 := by
  unfold candidate
  split
  · decide
  · have h : ("example" ++ toString i).utf8ByteSize
        = String.utf8ByteSize.go ("xample".data ++ (toString i).data) + 1 := rfl
    rw [h]
    exact Nat.succ_ne_zero _

theorem scanID_found {V : Type} (m : GoMap V) (j : Nat) :
    ∀ (n i : Nat), i ≤ j → j < i + n →
      (∀ k, i ≤ k → k < j → m.has (candidate k) = true) →
      m.has (candidate j) = false → scanID m n i = candidate j := by
  intro n
  induction n with
  | zero => intro i h1 h2; omega
  | succ n ih =>
    intro i h1 h2 hlt hj
    rcases Nat.eq_or_lt_of_le h1 with h | h
    · subst h
      simp [scanID, hj]
    · have hi : m.has (candidate i) = true := hlt i (Nat.le_refl i) h
      simp only [scanID, hi, if_true]
      exact ih (i + 1) h (by omega) (fun k hk1 hk2 => hlt k (by omega) hk2) hj

theorem scanID_exhausted {V : Type} (m : GoMap V) :
    ∀ (n i : Nat), (∀ k, i ≤ k → k < i + n → m.has (candidate k) = true) →
      scanID m n i = "" := by
  intro n
  induction n with
  | zero => intro i _; rfl
  | succ n ih =>
    intro i h
    have hi : m.has (candidate i) = true := h i (Nat.le_refl i) (by omega)
    simp only [scanID, hi, if_true]
    exact ih (i + 1) (fun k hk1 hk2 => h k (by omega) (by omega))

end config

namespace GoMap
variable {V : Type}
theorem set_of_not_has (m : GoMap V) (k : String) (v : V) (h : m.has k = false) :
    m.set k v = m ++ [(k, v)] := by
  induction m with
  | nil => rfl
  | cons e m ih =>
    simp only [has, List.any_cons, Bool.or_eq_false_iff] at h
    have h2 : GoMap.has m k = false := h.2
    simp [set, h.1, ih h2]
end GoMap

/-! ## Claims about `AddInput` and `AddOutput` -/

namespace config

/-- C1 (broker promotion).  When the Input slot holds a declaration `D` whose
type is not the broker type, `E` is a registered input type other than the
broker type, and the default input declaration has no nested inputs, then
`AddInput E` returns no error and leaves the Input slot broker-typed with
nested inputs exactly `[D, E']`: `D` is the previous slot value as it was, and
`E'` is the default declaration with its type set to `E`.  The same for
`AddOutput` and the Output slot. -/
theorem C1_broker_promotion {F : Type} (ip : input.Pkg F) (op : output.Pkg F)
    (conf : Type_ F) (E : String) :
    (conf.Input.Type_ ≠ ip.TypeBroker → E ∈ ip.Constructors → E ≠ ip.TypeBroker →
      ip.NewConfig.Broker.Inputs = [] →
        (AddInput ip E conf).err = none ∧
        (AddInput ip E conf).conf.Input.Type_ = ip.TypeBroker ∧
        (AddInput ip E conf).conf.Input.Broker.Inputs
          = [conf.Input, ip.NewConfig.setType E]) ∧
    (conf.Output.Type_ ≠ op.TypeBroker → E ∈ op.Constructors → E ≠ op.TypeBroker →
      op.NewConfig.Broker.Outputs = [] →
        (AddOutput op E conf).err = none ∧
        (AddOutput op E conf).conf.Output.Type_ = op.TypeBroker ∧
        (AddOutput op E conf).conf.Output.Broker.Outputs
          = [conf.Output, op.NewConfig.setType E]) := by
  constructor
  · intro hD hE hEb hdef
    rw [AddInput_promote ip E conf (Or.inr hE) hD hEb]
    simp [hdef]
  · intro hD hE hEb hdef
    rw [AddOutput_promote op E conf (Or.inr hE) hD hEb]
    simp [hdef]

/-- C1 at `Example.tree`: adding `"file"` to the `kafka` input and to the
`stdout` output. -/
theorem C1_broker_promotion_witness :
    ((AddInput Example.inputs "file" Example.tree).err = none ∧
      (AddInput Example.inputs "file" Example.tree).conf.Input.Type_ = "broker" ∧
      (AddInput Example.inputs "file" Example.tree).conf.Input.Broker.Inputs
        = [.mk "kafka" ⟨[], [("copies", "1")]⟩ [("kafka.topic", "orders")],
           .mk "file" ⟨[], [("copies", "1")]⟩ [("stdin.multipart", "false")]]) ∧
    ((AddOutput Example.outputs "file" Example.tree).err = none ∧
      (AddOutput Example.outputs "file" Example.tree).conf.Output.Type_ = "broker" ∧
      (AddOutput Example.outputs "file" Example.tree).conf.Output.Broker.Outputs
        = [.mk "stdout" ⟨[], [("copies", "1")]⟩ [("stdout.delimiter", ";")],
           .mk "file" ⟨[], [("copies", "1"), ("pattern", "fan_out")]⟩
             [("stdout.delimiter", "")]]) :=
  ⟨(C1_broker_promotion Example.inputs Example.outputs Example.tree "file").1
      (by decide) (by decide) (by decide) rfl,
    (C1_broker_promotion Example.inputs Example.outputs Example.tree "file").2
      (by decide) (by decide) (by decide) rfl⟩

/-- C2 (broker-of-broker suppression).  When the Input slot holds a declaration
`D` whose type is not the broker type, and the library is as `add.go` expects
it (the broker type is a registered input type, the default input declaration
has no nested inputs), then `AddInput` of the broker type returns no error and
leaves the Input slot broker-typed with nested inputs exactly `[D]`: no
broker-typed declaration follows `D`.  The same for `AddOutput` and the Output
slot. -/
theorem C2_broker_suppression {F : Type} (ip : input.Pkg F) (op : output.Pkg F)
    (conf : Type_ F) :
    (conf.Input.Type_ ≠ ip.TypeBroker → ip.TypeBroker ∈ ip.Constructors →
      ip.NewConfig.Broker.Inputs = [] →
        (AddInput ip ip.TypeBroker conf).err = none ∧
        (AddInput ip ip.TypeBroker conf).conf.Input.Type_ = ip.TypeBroker ∧
        (AddInput ip ip.TypeBroker conf).conf.Input.Broker.Inputs = [conf.Input]) ∧
    (conf.Output.Type_ ≠ op.TypeBroker → op.TypeBroker ∈ op.Constructors →
      op.NewConfig.Broker.Outputs = [] →
        (AddOutput op op.TypeBroker conf).err = none ∧
        (AddOutput op op.TypeBroker conf).conf.Output.Type_ = op.TypeBroker ∧
        (AddOutput op op.TypeBroker conf).conf.Output.Broker.Outputs = [conf.Output]) := by
  constructor
  · intro hD hreg hdef
    rw [AddInput_wrap ip conf (Or.inr hreg) hD]
    simp [hdef]
  · intro hD hreg hdef
    rw [AddOutput_wrap op conf (Or.inr hreg) hD]
    simp [hdef]

/-- C2 at `Example.tree`: adding `"broker"` to the `kafka` input and to the
`stdout` output. -/
theorem C2_broker_suppression_witness :
    ((AddInput Example.inputs "broker" Example.tree).err = none ∧
      (AddInput Example.inputs "broker" Example.tree).conf.Input.Type_ = "broker" ∧
      (AddInput Example.inputs "broker" Example.tree).conf.Input.Broker.Inputs
        = [.mk "kafka" ⟨[], [("copies", "1")]⟩ [("kafka.topic", "orders")]]) ∧
    ((AddOutput Example.outputs "broker" Example.tree).err = none ∧
      (AddOutput Example.outputs "broker" Example.tree).conf.Output.Type_ = "broker" ∧
      (AddOutput Example.outputs "broker" Example.tree).conf.Output.Broker.Outputs
        = [.mk "stdout" ⟨[], [("copies", "1")]⟩ [("stdout.delimiter", ";")]]) :=
  ⟨(C2_broker_suppression Example.inputs Example.outputs Example.tree).1
      (by decide) (by decide) rfl,
    (C2_broker_suppression Example.inputs Example.outputs Example.tree).2
      (by decide) (by decide) rfl⟩

/-- C3 (repeated promotion is stable).  When the Input slot is broker-typed
already, with nested inputs `L`, and `T` is a registered input type, then
`AddInput T` returns no error and leaves in the Input slot the previous
declaration with nested inputs `L ++ [T']`, `T'` the default declaration with
its type set to `T`: the type of the slot, the other fields of its broker
section and its remaining fields are as before, so the slot is not wrapped
again.  The same for `AddOutput` and the Output slot. -/
theorem C3_repeated_promotion_stable {F : Type} (ip : input.Pkg F) (op : output.Pkg F)
    (conf : Type_ F) (T : String) :
    (conf.Input.Type_ = ip.TypeBroker → T ∈ ip.Constructors →
        (AddInput ip T conf).err = none ∧
        (AddInput ip T conf).conf.Input.Broker.Inputs
          = conf.Input.Broker.Inputs ++ [ip.NewConfig.setType T] ∧
        (AddInput ip T conf).conf.Input.Type_ = conf.Input.Type_ ∧
        (AddInput ip T conf).conf.Input.Broker.fields = conf.Input.Broker.fields ∧
        (AddInput ip T conf).conf.Input.fields = conf.Input.fields) ∧
    (conf.Output.Type_ = op.TypeBroker → T ∈ op.Constructors →
        (AddOutput op T conf).err = none ∧
        (AddOutput op T conf).conf.Output.Broker.Outputs
          = conf.Output.Broker.Outputs ++ [op.NewConfig.setType T] ∧
        (AddOutput op T conf).conf.Output.Type_ = conf.Output.Type_ ∧
        (AddOutput op T conf).conf.Output.Broker.fields = conf.Output.Broker.fields ∧
        (AddOutput op T conf).conf.Output.fields = conf.Output.fields) := by
  constructor
  · intro hD hT
    rw [AddInput_append ip T conf (Or.inr hT) hD]
    simp
  · intro hD hT
    rw [AddOutput_append op T conf (Or.inr hT) hD]
    simp

/-- C3 at `Example.brokered`: a third endpoint `"file"` is appended to the two
that each broker holds. -/
theorem C3_repeated_promotion_stable_witness :
    ((AddInput Example.inputs "file" Example.brokered).err = none ∧
      (AddInput Example.inputs "file" Example.brokered).conf.Input.Broker.Inputs
        = [.mk "kafka" ⟨[], []⟩ [("kafka.topic", "orders")], .mk "file" ⟨[], []⟩ [],
           .mk "file" ⟨[], [("copies", "1")]⟩ [("stdin.multipart", "false")]] ∧
      (AddInput Example.inputs "file" Example.brokered).conf.Input.Type_ = "broker" ∧
      (AddInput Example.inputs "file" Example.brokered).conf.Input.Broker.fields
        = [("copies", "2")] ∧
      (AddInput Example.inputs "file" Example.brokered).conf.Input.fields
        = [("processors", "none")]) ∧
    ((AddOutput Example.outputs "file" Example.brokered).err = none ∧
      (AddOutput Example.outputs "file" Example.brokered).conf.Output.Broker.Outputs
        = [.mk "stdout" ⟨[], []⟩ [], .mk "file" ⟨[], []⟩ [("file.path", "out.txt")],
           .mk "file" ⟨[], [("copies", "1"), ("pattern", "fan_out")]⟩
             [("stdout.delimiter", "")]] ∧
      (AddOutput Example.outputs "file" Example.brokered).conf.Output.Type_ = "broker" ∧
      (AddOutput Example.outputs "file" Example.brokered).conf.Output.Broker.fields
        = [("pattern", "round_robin")] ∧
      (AddOutput Example.outputs "file" Example.brokered).conf.Output.fields = []) :=
  ⟨(C3_repeated_promotion_stable Example.inputs Example.outputs Example.brokered "file").1
      rfl (by decide),
    (C3_repeated_promotion_stable Example.inputs Example.outputs Example.brokered "file").2
      rfl (by decide)⟩

end config

/-! ## Claims about `AddCache` and `AddRatelimit` -/

namespace Example

/-- Every candidate key is a key of `fullMap v`. -/
theorem fullMap_has {V : Type} (v : V) (i : Nat) (h : i < 10000) :
    (fullMap v).has (config.candidate i) = true := by
  unfold GoMap.has fullMap
  rw [List.any_eq_true]
  exact ⟨(config.candidate i, v), List.mem_map.2 ⟨i, List.mem_range.2 h, rfl⟩, by simp⟩

end Example

namespace config

variable {F : Type}

/-- The exhaustion message does not start like an unrecognised-type message of
`AddCache`. -/
theorem exhausted_ne_cache (t : String) :
    "what the hell are you doing?" ≠ "cache type '" ++ t ++ "' not recognised" := by
  intro h
  have h2 := congrArg (fun s : String => s.data.head?) h
  have h3 : ("cache type '" ++ t ++ "' not recognised").data.head? = some 'c' := rfl
  simp only [h3] at h2
  exact absurd h2 (by decide)

/-- The exhaustion message does not start like an unrecognised-type message of
`AddRatelimit`. -/
theorem exhausted_ne_ratelimit (t : String) :
    "what the hell are you doing?" ≠ "ratelimit type '" ++ t ++ "' not recognised" := by
  intro h
  have h2 := congrArg (fun s : String => s.data.head?) h
  have h3 : ("ratelimit type '" ++ t ++ "' not recognised").data.head? = some 'r' := rfl
  simp only [h3] at h2
  exact absurd h2 (by decide)

/-- The type check of `AddCache` fails. -/
theorem AddCache_rejected (p : cache.Pkg F) (cType : String) (conf : Type_ F)
    (hr : cType ∉ p.Constructors) :
    AddCache p cType conf = ⟨some ("cache type '" ++ cType ++ "' not recognised"), conf⟩ := by
  simp [AddCache, hr]

/-- The loop of `AddCache` stops at `j`, the first free candidate. -/
theorem AddCache_inserted (p : cache.Pkg F) (cType : String) (conf : Type_ F) (j : Nat)
    (hr : cType ∈ p.Constructors) (hj : j < 10000)
    (hfree : conf.Manager.Caches.has (candidate j) = false)
    (hmin : ∀ i, i < j → conf.Manager.Caches.has (candidate i) = true) :
    AddCache p cType conf = ⟨none, { conf with
      Manager := { conf.Manager with
        Caches := conf.Manager.Caches ++ [(candidate j, { p.NewConfig with Type_ := cType })] } }⟩ := by
  have hs : scanID conf.Manager.Caches 10000 0 = candidate j :=
    scanID_found conf.Manager.Caches j 10000 0 (Nat.zero_le j) (by omega)
      (fun k _ hk => hmin k hk) hfree
  unfold AddCache
  rw [if_neg (not_not.2 hr)]
  simp only [hs, if_neg (candidate_size j)]
  rw [GoMap.set_of_not_has _ _ _ hfree]

/-- The loop of `AddCache` finds every candidate taken. -/
theorem AddCache_exhausted (p : cache.Pkg F) (cType : String) (conf : Type_ F)
    (hr : cType ∈ p.Constructors)
    (hfull : ∀ i, i < 10000 → conf.Manager.Caches.has (candidate i) = true) :
    AddCache p cType conf = ⟨some "what the hell are you doing?", conf⟩ := by
  have hs : scanID conf.Manager.Caches 10000 0 = "" :=
    scanID_exhausted conf.Manager.Caches 10000 0 (fun k _ hk => hfull k (by omega))
  unfold AddCache
  rw [if_neg (not_not.2 hr)]
  simp only [hs]
  rfl

/-- The type check of `AddRatelimit` fails. -/
theorem AddRatelimit_rejected (p : ratelimit.Pkg F) (cType : String) (conf : Type_ F)
    (hr : cType ∉ p.Constructors) :
    AddRatelimit p cType conf
      = ⟨some ("ratelimit type '" ++ cType ++ "' not recognised"), conf⟩ := by
  simp [AddRatelimit, hr]

/-- The loop of `AddRatelimit` stops at `j`, the first free candidate. -/
theorem AddRatelimit_inserted (p : ratelimit.Pkg F) (cType : String) (conf : Type_ F)
    (j : Nat) (hr : cType ∈ p.Constructors) (hj : j < 10000)
    (hfree : conf.Manager.RateLimits.has (candidate j) = false)
    (hmin : ∀ i, i < j → conf.Manager.RateLimits.has (candidate i) = true) :
    AddRatelimit p cType conf = ⟨none, { conf with
      Manager := { conf.Manager with
        RateLimits :=
          conf.Manager.RateLimits ++ [(candidate j, { p.NewConfig with Type_ := cType })] } }⟩ := by
  have hs : scanID conf.Manager.RateLimits 10000 0 = candidate j :=
    scanID_found conf.Manager.RateLimits j 10000 0 (Nat.zero_le j) (by omega)
      (fun k _ hk => hmin k hk) hfree
  unfold AddRatelimit
  rw [if_neg (not_not.2 hr)]
  simp only [hs, if_neg (candidate_size j)]
  rw [GoMap.set_of_not_has _ _ _ hfree]

/-- The loop of `AddRatelimit` finds every candidate taken. -/
theorem AddRatelimit_exhausted (p : ratelimit.Pkg F) (cType : String) (conf : Type_ F)
    (hr : cType ∈ p.Constructors)
    (hfull : ∀ i, i < 10000 → conf.Manager.RateLimits.has (candidate i) = true) :
    AddRatelimit p cType conf = ⟨some "what the hell are you doing?", conf⟩ := by
  have hs : scanID conf.Manager.RateLimits 10000 0 = "" :=
    scanID_exhausted conf.Manager.RateLimits 10000 0 (fun k _ hk => hfull k (by omega))
  unfold AddRatelimit
  rw [if_neg (not_not.2 hr)]
  simp only [hs]
  rfl

end config

namespace Example

/-- Every candidate key is a key of the caches of `full`. -/
theorem full_caches_has (i : Nat) (h : i < 10000) :
    full.Manager.Caches.has (config.candidate i) = true := by
  simp only [full]
  exact fullMap_has _ i h

/-- Every candidate key is a key of the rate limits of `full`. -/
theorem full_ratelimits_has (i : Nat) (h : i < 10000) :
    full.Manager.RateLimits.has (config.candidate i) = true := by
  simp only [full]
  exact fullMap_has _ i h

end Example

namespace config

/-- C4 (first-free key selection).  The candidates are `"example"`,
`"example1"`, `"example2"`, ..., `"example9999"`.  For a registered cache type
`T` and a tree with Caches mapping `M`: when some candidate of index below
10000 is not a key of `M`, `AddCache T` returns no error; when `j < 10000` is
the least index whose candidate is not a key of `M`, the call returns no error
and leaves the tree with Caches mapping `M` extended by the one entry
`candidate j ↦ d`, `d` the default cache declaration with its type set to `T`.
In particular an empty mapping gets the key `"example"`, a mapping with the
keys `"example"` and `"example1"` but not `"example2"` gets `"example2"`, and a
mapping without the key `"example"` gets `"example"`, whatever other keys it
holds. -/
theorem C4_first_free_key {F : Type} (p : cache.Pkg F) (T : String) (conf : Type_ F)
    (hT : T ∈ p.Constructors) :
    (candidate 0 = "example" ∧ candidate 1 = "example1" ∧ candidate 2 = "example2" ∧
      candidate 10 = "example10" ∧ candidate 9999 = "example9999" ∧
      ∀ i, 1 ≤ i → candidate i = "example" ++ toString i) ∧
    ((∃ i, i < 10000 ∧ conf.Manager.Caches.has (candidate i) = false) →
      (AddCache p T conf).err = none) ∧
    (∀ j, j < 10000 → conf.Manager.Caches.has (candidate j) = false →
      (∀ i, i < j → conf.Manager.Caches.has (candidate i) = true) →
      AddCache p T conf = ⟨none, { conf with
        Manager := { conf.Manager with
          Caches := conf.Manager.Caches ++ [(candidate j, { p.NewConfig with Type_ := T })] } }⟩) ∧
    (conf.Manager.Caches = [] →
      (AddCache p T conf).conf.Manager.Caches = [("example", { p.NewConfig with Type_ := T })]) ∧
    (conf.Manager.Caches.has "example" = true → conf.Manager.Caches.has "example1" = true →
      conf.Manager.Caches.has "example2" = false →
      (AddCache p T conf).conf.Manager.Caches
        = conf.Manager.Caches ++ [("example2", { p.NewConfig with Type_ := T })]) ∧
    (conf.Manager.Caches.has "example" = false →
      (AddCache p T conf).conf.Manager.Caches
        = conf.Manager.Caches ++ [("example", { p.NewConfig with Type_ := T })]) := by
  have key := AddCache_inserted p T conf
  refine ⟨⟨by decide, by decide, by decide, by decide, by decide, ?_⟩, ?_, ?_, ?_, ?_, ?_⟩
  · intro i hi
    unfold candidate
    rw [if_neg (by omega)]
  · rintro ⟨i, hi, hfree⟩
    have hex : ∃ k, k < 10000 ∧ conf.Manager.Caches.has (candidate k) = false :=
      ⟨i, hi, hfree⟩
    have hj := Nat.find_spec hex
    rw [key (Nat.find hex) hT hj.1 hj.2]
    intro k hk
    have hn := Nat.find_min hex hk
    by_contra hc
    exact hn ⟨by omega, by simpa using hc⟩
  · intro j hj hfree hmin
    exact key j hT hj hfree hmin
  · intro hM
    have h0 : conf.Manager.Caches.has (candidate 0) = false := by rw [hM]; rfl
    rw [key 0 hT (by omega) h0 (fun i hi => absurd hi (Nat.not_lt_zero i)), hM]
    rfl
  · intro h0 h1 h2
    have hmin : ∀ i, i < 2 → conf.Manager.Caches.has (candidate i) = true := by
      intro i hi
      rcases (by omega : i = 0 ∨ i = 1) with h | h
      · subst h; exact h0
      · subst h; exact h1
    rw [key 2 hT (by omega) h2 hmin]
    rfl
  · intro h0
    rw [key 0 hT (by omega) h0 (fun i hi => absurd hi (Nat.not_lt_zero i))]
    rfl

/-- C4 at `Example.keyed`, whose caches are `example` and `example1`: the new
cache goes under `example2`, the least free candidate being the one of index
2. -/
theorem C4_first_free_key_witness :
    AddCache Example.caches "memcached" Example.keyed = ⟨none, { Example.keyed with
      Manager := { Example.keyed.Manager with
        Caches := [("example", ⟨"redis", [("redis.url", "tcp://localhost:6379")]⟩),
          ("example1", ⟨"memory", []⟩),
          ("example2", ⟨"memcached", [("memory.ttl", "300")]⟩)] } }⟩ :=
  (C4_first_free_key Example.caches "memcached" Example.keyed (by decide)).2.2.1 2
    (by decide) (by decide) (by decide)

/-- C5 (key-space exhaustion fails closed).  For a registered cache type `T` and
a tree whose Caches mapping has all 10000 candidate keys, `AddCache T` returns
the error `what the hell are you doing?`, which is not the unrecognised-type
error of any type name, and the tree after the call is the tree before it: no
entry of the mapping is overwritten.  The same for `AddRatelimit` and the
RateLimits mapping. -/
theorem C5_exhaustion_fails_closed {F : Type} (cp : cache.Pkg F) (rp : ratelimit.Pkg F)
    (T : String) (conf : Type_ F) :
    (T ∈ cp.Constructors →
      (∀ i, i < 10000 → conf.Manager.Caches.has (candidate i) = true) →
        AddCache cp T conf = ⟨some "what the hell are you doing?", conf⟩ ∧
        (∀ t, (AddCache cp T conf).err ≠ some ("cache type '" ++ t ++ "' not recognised")) ∧
        (AddCache cp T conf).conf.Manager.Caches = conf.Manager.Caches) ∧
    (T ∈ rp.Constructors →
      (∀ i, i < 10000 → conf.Manager.RateLimits.has (candidate i) = true) →
        AddRatelimit rp T conf = ⟨some "what the hell are you doing?", conf⟩ ∧
        (∀ t, (AddRatelimit rp T conf).err
          ≠ some ("ratelimit type '" ++ t ++ "' not recognised")) ∧
        (AddRatelimit rp T conf).conf.Manager.RateLimits = conf.Manager.RateLimits) := by
  constructor
  · intro hT hfull
    rw [AddCache_exhausted cp T conf hT hfull]
    exact ⟨rfl, fun t h => exhausted_ne_cache t (Option.some.inj h), rfl⟩
  · intro hT hfull
    rw [AddRatelimit_exhausted rp T conf hT hfull]
    exact ⟨rfl, fun t h => exhausted_ne_ratelimit t (Option.some.inj h), rfl⟩

/-- C5 at `Example.full`, whose two mappings hold all 10000 candidate keys. -/
theorem C5_exhaustion_fails_closed_witness :
    (AddCache Example.caches "memory" Example.full
        = ⟨some "what the hell are you doing?", Example.full⟩ ∧
      (∀ t, (AddCache Example.caches "memory" Example.full).err
        ≠ some ("cache type '" ++ t ++ "' not recognised")) ∧
      (AddCache Example.caches "memory" Example.full).conf.Manager.Caches
        = Example.full.Manager.Caches) ∧
    (AddRatelimit Example.ratelimits "local" Example.full
        = ⟨some "what the hell are you doing?", Example.full⟩ ∧
      (∀ t, (AddRatelimit Example.ratelimits "local" Example.full).err
        ≠ some ("ratelimit type '" ++ t ++ "' not recognised")) ∧
      (AddRatelimit Example.ratelimits "local" Example.full).conf.Manager.RateLimits
        = Example.full.Manager.RateLimits) :=
  ⟨(C5_exhaustion_fails_closed Example.caches Example.ratelimits "memory" Example.full).1
      (by decide) Example.full_caches_has,
    (C5_exhaustion_fails_closed Example.caches Example.ratelimits "local" Example.full).2
      (by decide) Example.full_ratelimits_has⟩

end config

/-! ## Claims about the type check -/

namespace config

variable {F : Type}

/-- The type check of `AddInput` passes: no error is returned. -/
theorem AddInput_accepted (p : input.Pkg F) (cType : String) (conf : Type_ F)
    (hv : cType = "benthos_lab" ∨ cType ∈ p.Constructors) :
    (AddInput p cType conf).err = none := by
  by_cases hD : conf.Input.Type_ = p.TypeBroker
  · rw [AddInput_append p cType conf hv hD]
  · by_cases hE : cType = p.TypeBroker
    · subst hE
      rw [AddInput_wrap p conf hv hD]
    · rw [AddInput_promote p cType conf hv hD hE]

/-- The type check of `AddOutput` passes: no error is returned. -/
theorem AddOutput_accepted (p : output.Pkg F) (cType : String) (conf : Type_ F)
    (hv : cType = "benthos_lab" ∨ cType ∈ p.Constructors) :
    (AddOutput p cType conf).err = none := by
  by_cases hD : conf.Output.Type_ = p.TypeBroker
  · rw [AddOutput_append p cType conf hv hD]
  · by_cases hE : cType = p.TypeBroker
    · subst hE
      rw [AddOutput_wrap p conf hv hD]
    · rw [AddOutput_promote p cType conf hv hD hE]

/-- C6 (endpoint insertion fails exactly on unknown non-sentinel types).  For
every tree and type name `t`, `AddInput t` returns an error if and only if `t`
is not in the input registry and is not `"benthos_lab"`; when it returns an
error the tree is unchanged; for `"benthos_lab"` and for every registered type
it returns no error.  The same for `AddOutput` and the output registry. -/
theorem C6_endpoint_failure_iff {F : Type} (ip : input.Pkg F) (op : output.Pkg F)
    (t : String) (conf : Type_ F) :
    (((AddInput ip t conf).err ≠ none ↔ (t ∉ ip.Constructors ∧ t ≠ "benthos_lab")) ∧
      ((AddInput ip t conf).err ≠ none → (AddInput ip t conf).conf = conf) ∧
      (AddInput ip "benthos_lab" conf).err = none ∧
      (t ∈ ip.Constructors → (AddInput ip t conf).err = none)) ∧
    (((AddOutput op t conf).err ≠ none ↔ (t ∉ op.Constructors ∧ t ≠ "benthos_lab")) ∧
      ((AddOutput op t conf).err ≠ none → (AddOutput op t conf).conf = conf) ∧
      (AddOutput op "benthos_lab" conf).err = none ∧
      (t ∈ op.Constructors → (AddOutput op t conf).err = none)) := by
  constructor
  · by_cases hv : t = "benthos_lab" ∨ t ∈ ip.Constructors
    · have h := AddInput_accepted ip t conf hv
      refine ⟨⟨fun he => absurd h he, ?_⟩, fun he => absurd h he,
        AddInput_accepted ip _ conf (Or.inl rfl), fun _ => h⟩
      rintro ⟨h1, h2⟩
      rcases hv with hv | hv
      · exact absurd hv h2
      · exact absurd hv h1
    · have hs : t ≠ "benthos_lab" := fun h => hv (Or.inl h)
      have hr : t ∉ ip.Constructors := fun h => hv (Or.inr h)
      refine ⟨⟨fun _ => ⟨hr, hs⟩, fun _ => ?_⟩, fun _ => ?_,
        AddInput_accepted ip _ conf (Or.inl rfl), fun h => absurd h hr⟩
      · rw [AddInput_rejected ip t conf hs hr]
        simp
      · rw [AddInput_rejected ip t conf hs hr]
  · by_cases hv : t = "benthos_lab" ∨ t ∈ op.Constructors
    · have h := AddOutput_accepted op t conf hv
      refine ⟨⟨fun he => absurd h he, ?_⟩, fun he => absurd h he,
        AddOutput_accepted op _ conf (Or.inl rfl), fun _ => h⟩
      rintro ⟨h1, h2⟩
      rcases hv with hv | hv
      · exact absurd hv h2
      · exact absurd hv h1
    · have hs : t ≠ "benthos_lab" := fun h => hv (Or.inl h)
      have hr : t ∉ op.Constructors := fun h => hv (Or.inr h)
      refine ⟨⟨fun _ => ⟨hr, hs⟩, fun _ => ?_⟩, fun _ => ?_,
        AddOutput_accepted op _ conf (Or.inl rfl), fun h => absurd h hr⟩
      · rw [AddOutput_rejected op t conf hs hr]
        simp
      · rw [AddOutput_rejected op t conf hs hr]

/-- C6 at `Example.tree` and the unregistered name `"kafak"`: both calls
return an error and leave the tree as it was. -/
theorem C6_endpoint_failure_iff_witness :
    ((AddInput Example.inputs "kafak" Example.tree).err ≠ none ∧
      (AddInput Example.inputs "kafak" Example.tree).conf = Example.tree) ∧
    ((AddOutput Example.outputs "kafak" Example.tree).err ≠ none ∧
      (AddOutput Example.outputs "kafak" Example.tree).conf = Example.tree) :=
  have h := C6_endpoint_failure_iff Example.inputs Example.outputs "kafak" Example.tree
  ⟨⟨h.1.1.2 ⟨by decide, by decide⟩, h.1.2.1 (h.1.1.2 ⟨by decide, by decide⟩)⟩,
    ⟨h.2.1.2 ⟨by decide, by decide⟩, h.2.2.1 (h.2.1.2 ⟨by decide, by decide⟩)⟩⟩

/-- C7 as stated fails at the name `"benthos_lab"`: it is not in the registry
of `Example.inputs` nor in that of `Example.outputs`, yet `AddInput` and
`AddOutput` return no error for it and change the tree (the slot becomes a
broker). -/
theorem C7_counterexample_sentinel :
    ("benthos_lab" ∉ Example.inputs.Constructors ∧
      (AddInput Example.inputs "benthos_lab" Example.tree).err = none ∧
      (AddInput Example.inputs "benthos_lab" Example.tree).conf ≠ Example.tree ∧
      (AddInput Example.inputs "benthos_lab" Example.tree).conf.Input.Broker.Inputs
        = [Example.tree.Input, Example.inputs.NewConfig.setType "benthos_lab"]) ∧
    ("benthos_lab" ∉ Example.outputs.Constructors ∧
      (AddOutput Example.outputs "benthos_lab" Example.tree).err = none ∧
      (AddOutput Example.outputs "benthos_lab" Example.tree).conf ≠ Example.tree ∧
      (AddOutput Example.outputs "benthos_lab" Example.tree).conf.Output.Broker.Outputs
        = [Example.tree.Output, Example.outputs.NewConfig.setType "benthos_lab"]) := by
  refine ⟨⟨by decide, rfl, ?_, rfl⟩, ⟨by decide, rfl, ?_, rfl⟩⟩
  · intro h
    have h2 := congrArg (fun c : Type_ Example.Fields => c.Input.Type_) h
    exact absurd h2 (by decide)
  · intro h
    have h2 := congrArg (fun c : Type_ Example.Fields => c.Output.Type_) h
    exact absurd h2 (by decide)

/-- C7, amended (unknown type rejection for endpoints).  For every tree and
every type name that is absent from the input registry and is not
`"benthos_lab"`, `AddInput` returns the unrecognised-type error
`input type '<name>' not recognised` and leaves the tree unchanged; likewise
`AddOutput`, with `output type '<name>' not recognised`, for every type name
absent from the output registry and other than `"benthos_lab"`. -/
theorem C7_unknown_endpoint_rejected {F : Type} (ip : input.Pkg F) (op : output.Pkg F)
    (t : String) (conf : Type_ F) (hs : t ≠ "benthos_lab") :
    (t ∉ ip.Constructors →
      AddInput ip t conf = ⟨some ("input type '" ++ t ++ "' not recognised"), conf⟩) ∧
    (t ∉ op.Constructors →
      AddOutput op t conf = ⟨some ("output type '" ++ t ++ "' not recognised"), conf⟩) :=
  ⟨fun hr => AddInput_rejected ip t conf hs hr, fun hr => AddOutput_rejected op t conf hs hr⟩

/-- C7, amended, at `Example.tree` and the unregistered name `"kafak"`. -/
theorem C7_unknown_endpoint_rejected_witness :
    AddInput Example.inputs "kafak" Example.tree
      = ⟨some "input type 'kafak' not recognised", Example.tree⟩ ∧
    AddOutput Example.outputs "kafak" Example.tree
      = ⟨some "output type 'kafak' not recognised", Example.tree⟩ :=
  have h := C7_unknown_endpoint_rejected Example.inputs Example.outputs "kafak" Example.tree
    (by decide)
  ⟨h.1 (by decide), h.2 (by decide)⟩

end config

/-! ## Claims about `AddProcessor` and `AddCondition` -/

namespace config

variable {F : Type}

/-- The type check of `AddProcessor` fails. -/
theorem AddProcessor_rejected (p : processor.Pkg F) (cType : String) (conf : Type_ F)
    (hr : cType ∉ p.Constructors) :
    AddProcessor p cType conf
      = ⟨some ("processor type '" ++ cType ++ "' not recognised"), conf⟩ := by
  simp [AddProcessor, hr]

/-- The type check of `AddProcessor` passes. -/
theorem AddProcessor_appended (p : processor.Pkg F) (cType : String) (conf : Type_ F)
    (hr : cType ∈ p.Constructors) :
    AddProcessor p cType conf = ⟨none, { conf with
      Pipeline := { conf.Pipeline with
        Processors := conf.Pipeline.Processors ++ [{ p.NewConfig with Type_ := cType }] } }⟩ := by
  simp [AddProcessor, hr]

/-- The type check of `AddCondition` fails. -/
theorem AddCondition_rejected (c : condition.Pkg F) (p : processor.Pkg F) (cType : String)
    (conf : Type_ F) (hr : cType ∉ c.Constructors) :
    AddCondition c p cType conf
      = ⟨some ("condition type '" ++ cType ++ "' not recognised"), conf⟩ := by
  simp [AddCondition, hr]

/-- The type check of `AddCondition` passes. -/
theorem AddCondition_appended (c : condition.Pkg F) (p : processor.Pkg F) (cType : String)
    (conf : Type_ F) (hr : cType ∈ c.Constructors) :
    AddCondition c p cType conf = ⟨none, { conf with
      Pipeline := { conf.Pipeline with
        Processors := conf.Pipeline.Processors ++
          [{ Type_ := p.TypeFilterParts,
             FilterParts := { Config := { c.NewConfig with Type_ := cType } },
             fields := p.NewConfig.fields }] } }⟩ := by
  simp [AddCondition, hr]

/-- C8 (unknown type rejection for processors, conditions, caches and rate
limits).  For every tree and every type name absent from the corresponding
registry, `AddProcessor`, `AddCondition`, `AddCache` and `AddRatelimit` each
return their unrecognised-type error, `<category> type '<name>' not
recognised`, and leave the tree unchanged, whatever the mappings hold (the
check comes before the key scan).  Conversely `AddProcessor` and
`AddCondition` return no error for every registered type name. -/
theorem C8_unknown_type_rejected {F : Type} (pp : processor.Pkg F) (cp : condition.Pkg F)
    (kp : cache.Pkg F) (rp : ratelimit.Pkg F) (t : String) (conf : Type_ F) :
    (t ∉ pp.Constructors →
      AddProcessor pp t conf
        = ⟨some ("processor type '" ++ t ++ "' not recognised"), conf⟩) ∧
    (t ∉ cp.Constructors →
      AddCondition cp pp t conf
        = ⟨some ("condition type '" ++ t ++ "' not recognised"), conf⟩) ∧
    (t ∉ kp.Constructors →
      AddCache kp t conf = ⟨some ("cache type '" ++ t ++ "' not recognised"), conf⟩) ∧
    (t ∉ rp.Constructors →
      AddRatelimit rp t conf
        = ⟨some ("ratelimit type '" ++ t ++ "' not recognised"), conf⟩) ∧
    (t ∈ pp.Constructors → (AddProcessor pp t conf).err = none) ∧
    (t ∈ cp.Constructors → (AddCondition cp pp t conf).err = none) := by
  refine ⟨AddProcessor_rejected pp t conf, AddCondition_rejected cp pp t conf,
    AddCache_rejected kp t conf, AddRatelimit_rejected rp t conf, ?_, ?_⟩
  · intro h
    rw [AddProcessor_appended pp t conf h]
  · intro h
    rw [AddCondition_appended cp pp t conf h]

/-- C8 at `Example.full`, whose mappings hold every candidate key, and the
unregistered name `"nope"`: the error is the unrecognised-type one. -/
theorem C8_unknown_type_rejected_witness :
    AddProcessor Example.processors "nope" Example.full
      = ⟨some "processor type 'nope' not recognised", Example.full⟩ ∧
    AddCondition Example.conditions Example.processors "nope" Example.full
      = ⟨some "condition type 'nope' not recognised", Example.full⟩ ∧
    AddCache Example.caches "nope" Example.full
      = ⟨some "cache type 'nope' not recognised", Example.full⟩ ∧
    AddRatelimit Example.ratelimits "nope" Example.full
      = ⟨some "ratelimit type 'nope' not recognised", Example.full⟩ :=
  have h := C8_unknown_type_rejected Example.processors Example.conditions Example.caches
    Example.ratelimits "nope" Example.full
  ⟨h.1 (by decide), h.2.1 (by decide), h.2.2.1 (by decide), h.2.2.2.1 (by decide)⟩

/-- C9 (processor append without reordering or deduplication).  For every tree
with processor sequence `P` and every registered processor type `T`,
`AddProcessor T` returns no error and leaves the processor sequence
`P ++ [d]`, `d` the default processor declaration with its type set to `T`; a
second `AddProcessor T` returns no error and leaves `P ++ [d, d]`; from an
empty pipeline the result has exactly the two entries `d, d`, both of type
`T`. -/
theorem C9_processor_append {F : Type} (p : processor.Pkg F) (T : String) (conf : Type_ F)
    (hT : T ∈ p.Constructors) :
    ((AddProcessor p T conf).err = none ∧
      (AddProcessor p T conf).conf.Pipeline.Processors
        = conf.Pipeline.Processors ++ [{ p.NewConfig with Type_ := T }]) ∧
    ((AddProcessor p T (AddProcessor p T conf).conf).err = none ∧
      (AddProcessor p T (AddProcessor p T conf).conf).conf.Pipeline.Processors
        = conf.Pipeline.Processors
          ++ [{ p.NewConfig with Type_ := T }, { p.NewConfig with Type_ := T }]) ∧
    (conf.Pipeline.Processors = [] →
      (AddProcessor p T (AddProcessor p T conf).conf).conf.Pipeline.Processors
        = [{ p.NewConfig with Type_ := T }, { p.NewConfig with Type_ := T }] ∧
      (AddProcessor p T (AddProcessor p T conf).conf).conf.Pipeline.Processors.length = 2 ∧
      ∀ q ∈ (AddProcessor p T (AddProcessor p T conf).conf).conf.Pipeline.Processors,
        q.Type_ = T) := by
  have h2 : AddProcessor p T (AddProcessor p T conf).conf = ⟨none, { conf with
      Pipeline := { conf.Pipeline with
        Processors := conf.Pipeline.Processors
          ++ [{ p.NewConfig with Type_ := T }, { p.NewConfig with Type_ := T }] } }⟩ := by
    rw [AddProcessor_appended p T _ hT, AddProcessor_appended p T conf hT]
    simp
  refine ⟨?_, ?_, ?_⟩
  · rw [AddProcessor_appended p T conf hT]
    exact ⟨rfl, rfl⟩
  · rw [h2]
    exact ⟨rfl, rfl⟩
  · intro hP
    rw [h2]
    simp [hP]

/-- C9 at `Example.tree`, which has one processor: two more of type
`"bounds_check"` follow it. -/
theorem C9_processor_append_witness :
    (AddProcessor Example.processors "bounds_check"
        (AddProcessor Example.processors "bounds_check" Example.tree).conf).err = none ∧
    (AddProcessor Example.processors "bounds_check"
        (AddProcessor Example.processors "bounds_check" Example.tree).conf).conf.Pipeline.Processors
      = Example.tree.Pipeline.Processors
        ++ [{ Example.processors.NewConfig with Type_ := "bounds_check" },
            { Example.processors.NewConfig with Type_ := "bounds_check" }] :=
  (C9_processor_append Example.processors "bounds_check" Example.tree (by decide)).2.1

/-- C10 (condition wrapping).  For every tree with processor sequence `P` and
every registered condition type `C`, `AddCondition C` returns no error and
leaves the processor sequence `P ++ [q]`, one new entry at the end, where `q`
is the default processor declaration with its type set to the filter_parts
type and its `FilterParts.Config` set to the default condition declaration with
type `C`: the embedded condition has type `C` and the remaining fields of the
default condition, and the remaining fields of `q` are those of the default
processor. -/
theorem C10_condition_wrapping {F : Type} (c : condition.Pkg F) (p : processor.Pkg F)
    (C : String) (conf : Type_ F) (hC : C ∈ c.Constructors) :
    (AddCondition c p C conf).err = none ∧
    (AddCondition c p C conf).conf.Pipeline.Processors
      = conf.Pipeline.Processors ++
        [{ p.NewConfig with
            Type_ := p.TypeFilterParts,
            FilterParts := { Config := { c.NewConfig with Type_ := C } } }] ∧
    (AddCondition c p C conf).conf.Pipeline.Processors.length
      = conf.Pipeline.Processors.length + 1 ∧
    (∃ q, (AddCondition c p C conf).conf.Pipeline.Processors
        = conf.Pipeline.Processors ++ [q] ∧
      q.Type_ = p.TypeFilterParts ∧
      q.FilterParts.Config = { c.NewConfig with Type_ := C } ∧
      q.FilterParts.Config.Type_ = C ∧
      q.FilterParts.Config.fields = c.NewConfig.fields ∧
      q.fields = p.NewConfig.fields) := by
  rw [AddCondition_appended c p C conf hC]
  refine ⟨rfl, rfl, by simp, ⟨_, rfl, rfl, rfl, rfl, rfl, rfl⟩⟩

/-- C10 at `Example.tree`: the condition `"static"` arrives as a
`filter_parts` processor after the one processor of the tree. -/
theorem C10_condition_wrapping_witness :
    (AddCondition Example.conditions Example.processors "static" Example.tree).err = none ∧
    (AddCondition Example.conditions Example.processors "static"
        Example.tree).conf.Pipeline.Processors
      = [⟨"jmespath", ⟨⟨"text", []⟩⟩, [("jmespath.query", "a.b")]⟩,
         ⟨"filter_parts", ⟨⟨"static", [("text.operator", "equals_cs")]⟩⟩,
           [("bounds_check.max_parts", "100")]⟩] :=
  have h := C10_condition_wrapping Example.conditions Example.processors "static"
    Example.tree (by decide)
  ⟨h.1, h.2.1⟩

end config

/-! ## The frame of the six functions -/

namespace config

variable {F : Type}

/-- The tree after `AddInput` is the tree before it with, at most, another
Input slot. -/
theorem AddInput_frame (p : input.Pkg F) (t : String) (conf : Type_ F) :
    ∃ x, (AddInput p t conf).conf = { conf with Input := x } := by
  by_cases hv : t = "benthos_lab" ∨ t ∈ p.Constructors
  · by_cases hD : conf.Input.Type_ = p.TypeBroker
    · rw [AddInput_append p t conf hv hD]
      exact ⟨_, rfl⟩
    · by_cases hE : t = p.TypeBroker
      · subst hE
        rw [AddInput_wrap p conf hv hD]
        exact ⟨_, rfl⟩
      · rw [AddInput_promote p t conf hv hD hE]
        exact ⟨_, rfl⟩
  · rw [AddInput_rejected p t conf (fun h => hv (Or.inl h)) (fun h => hv (Or.inr h))]
    exact ⟨conf.Input, rfl⟩

/-- The tree after `AddOutput` is the tree before it with, at most, another
Output slot. -/
theorem AddOutput_frame (p : output.Pkg F) (t : String) (conf : Type_ F) :
    ∃ x, (AddOutput p t conf).conf = { conf with Output := x } := by
  by_cases hv : t = "benthos_lab" ∨ t ∈ p.Constructors
  · by_cases hD : conf.Output.Type_ = p.TypeBroker
    · rw [AddOutput_append p t conf hv hD]
      exact ⟨_, rfl⟩
    · by_cases hE : t = p.TypeBroker
      · subst hE
        rw [AddOutput_wrap p conf hv hD]
        exact ⟨_, rfl⟩
      · rw [AddOutput_promote p t conf hv hD hE]
        exact ⟨_, rfl⟩
  · rw [AddOutput_rejected p t conf (fun h => hv (Or.inl h)) (fun h => hv (Or.inr h))]
    exact ⟨conf.Output, rfl⟩

/-- The tree after `AddProcessor` is the tree before it with, at most, another
processor sequence. -/
theorem AddProcessor_frame (p : processor.Pkg F) (t : String) (conf : Type_ F) :
    ∃ x, (AddProcessor p t conf).conf
      = { conf with Pipeline := { conf.Pipeline with Processors := x } } := by
  by_cases hr : t ∈ p.Constructors
  · rw [AddProcessor_appended p t conf hr]
    exact ⟨_, rfl⟩
  · rw [AddProcessor_rejected p t conf hr]
    exact ⟨conf.Pipeline.Processors, rfl⟩

/-- The tree after `AddCondition` is the tree before it with, at most, another
processor sequence. -/
theorem AddCondition_frame (c : condition.Pkg F) (p : processor.Pkg F) (t : String)
    (conf : Type_ F) :
    ∃ x, (AddCondition c p t conf).conf
      = { conf with Pipeline := { conf.Pipeline with Processors := x } } := by
  by_cases hr : t ∈ c.Constructors
  · rw [AddCondition_appended c p t conf hr]
    exact ⟨_, rfl⟩
  · rw [AddCondition_rejected c p t conf hr]
    exact ⟨conf.Pipeline.Processors, rfl⟩

/-- The tree after `AddCache` is the tree before it with, at most, another
Caches mapping. -/
theorem AddCache_frame (p : cache.Pkg F) (t : String) (conf : Type_ F) :
    ∃ x, (AddCache p t conf).conf
      = { conf with Manager := { conf.Manager with Caches := x } } := by
  unfold AddCache
  split
  · exact ⟨conf.Manager.Caches, rfl⟩
  · dsimp only
    split
    · exact ⟨conf.Manager.Caches, rfl⟩
    · exact ⟨_, rfl⟩

/-- The tree after `AddRatelimit` is the tree before it with, at most, another
RateLimits mapping. -/
theorem AddRatelimit_frame (p : ratelimit.Pkg F) (t : String) (conf : Type_ F) :
    ∃ x, (AddRatelimit p t conf).conf
      = { conf with Manager := { conf.Manager with RateLimits := x } } := by
  unfold AddRatelimit
  split
  · exact ⟨conf.Manager.RateLimits, rfl⟩
  · dsimp only
    split
    · exact ⟨conf.Manager.RateLimits, rfl⟩
    · exact ⟨_, rfl⟩

/-- C11 (frame of every entry point).  On every call, returning an error or
not, `AddInput` leaves the Output slot, the pipeline, the manager section (both
keyed mappings) and the remaining fields of the tree as they were; `AddOutput`
leaves the Input slot, the pipeline, the manager section and the remaining
fields; `AddProcessor` and `AddCondition` leave both slots, the manager
section, the remaining fields of the pipeline and of the tree; `AddCache`
leaves both slots, the pipeline, the RateLimits mapping and the remaining
fields of the manager section and of the tree; `AddRatelimit` leaves both
slots, the pipeline, the Caches mapping and the remaining fields. -/
theorem C11_frame {F : Type} (ip : input.Pkg F) (op : output.Pkg F) (pp : processor.Pkg F)
    (cp : condition.Pkg F) (kp : cache.Pkg F) (rp : ratelimit.Pkg F) (t : String)
    (conf : Type_ F) :
    ((AddInput ip t conf).conf.Output = conf.Output ∧
      (AddInput ip t conf).conf.Pipeline = conf.Pipeline ∧
      (AddInput ip t conf).conf.Manager = conf.Manager ∧
      (AddInput ip t conf).conf.fields = conf.fields) ∧
    ((AddOutput op t conf).conf.Input = conf.Input ∧
      (AddOutput op t conf).conf.Pipeline = conf.Pipeline ∧
      (AddOutput op t conf).conf.Manager = conf.Manager ∧
      (AddOutput op t conf).conf.fields = conf.fields) ∧
    ((AddProcessor pp t conf).conf.Input = conf.Input ∧
      (AddProcessor pp t conf).conf.Output = conf.Output ∧
      (AddProcessor pp t conf).conf.Manager = conf.Manager ∧
      (AddProcessor pp t conf).conf.Pipeline.fields = conf.Pipeline.fields ∧
      (AddProcessor pp t conf).conf.fields = conf.fields) ∧
    ((AddCondition cp pp t conf).conf.Input = conf.Input ∧
      (AddCondition cp pp t conf).conf.Output = conf.Output ∧
      (AddCondition cp pp t conf).conf.Manager = conf.Manager ∧
      (AddCondition cp pp t conf).conf.Pipeline.fields = conf.Pipeline.fields ∧
      (AddCondition cp pp t conf).conf.fields = conf.fields) ∧
    ((AddCache kp t conf).conf.Input = conf.Input ∧
      (AddCache kp t conf).conf.Output = conf.Output ∧
      (AddCache kp t conf).conf.Pipeline = conf.Pipeline ∧
      (AddCache kp t conf).conf.Manager.RateLimits = conf.Manager.RateLimits ∧
      (AddCache kp t conf).conf.Manager.fields = conf.Manager.fields ∧
      (AddCache kp t conf).conf.fields = conf.fields) ∧
    ((AddRatelimit rp t conf).conf.Input = conf.Input ∧
      (AddRatelimit rp t conf).conf.Output = conf.Output ∧
      (AddRatelimit rp t conf).conf.Pipeline = conf.Pipeline ∧
      (AddRatelimit rp t conf).conf.Manager.Caches = conf.Manager.Caches ∧
      (AddRatelimit rp t conf).conf.Manager.fields = conf.Manager.fields ∧
      (AddRatelimit rp t conf).conf.fields = conf.fields) := by
  obtain ⟨x1, h1⟩ := AddInput_frame ip t conf
  obtain ⟨x2, h2⟩ := AddOutput_frame op t conf
  obtain ⟨x3, h3⟩ := AddProcessor_frame pp t conf
  obtain ⟨x4, h4⟩ := AddCondition_frame cp pp t conf
  obtain ⟨x5, h5⟩ := AddCache_frame kp t conf
  obtain ⟨x6, h6⟩ := AddRatelimit_frame rp t conf
  rw [h1, h2, h3, h4, h5, h6]
  simp

end config

/-! ## Keyed insertion only grows the mapping -/

namespace GoMap

variable {V : Type}

/-- The lookup `_, exists := m[k]` succeeds exactly for the keys of `m`. -/
theorem has_iff_mem_keys (m : GoMap V) (k : String) : m.has k = true ↔ k ∈ m.keys := by
  unfold has keys
  rw [List.any_eq_true, List.mem_map]
  constructor
  · rintro ⟨e, he, hk⟩
    exact ⟨e, he, by simpa using hk⟩
  · rintro ⟨e, he, hk⟩
    exact ⟨e, he, by simpa using hk⟩

/-- A key that the lookup does not find is not among the keys. -/
theorem not_mem_keys_of_has_false (m : GoMap V) (k : String) (h : m.has k = false) :
    k ∉ m.keys := by
  intro hk
  rw [← has_iff_mem_keys, h] at hk
  exact Bool.false_ne_true hk

/-- An entry added at the end does not change what the keys before it map
to. -/
theorem get?_append_of_some (m e : GoMap V) (k : String) (v : V) (h : m.get? k = some v) :
    GoMap.get? (m ++ e) k = some v := by
  unfold get? at h ⊢
  cases hf : List.find? (fun e => e.1 == k) m with
  | none => rw [hf] at h; exact absurd h (by simp)
  | some x =>
    rw [hf] at h
    rw [List.find?_append, hf]
    exact h

/-- The keys after an entry is added at the end. -/
theorem keys_append_entry (m : GoMap V) (k : String) (v : V) :
    GoMap.keys (m ++ [(k, v)]) = m.keys ++ [k] := by
  simp [keys]

end GoMap

namespace config

variable {F : Type}

/-- No candidate key is the empty string. -/
theorem candidate_ne_empty (i : Nat) : candidate i ≠ "" := by
  intro h
  have h2 := candidate_size i
  rw [h] at h2
  exact h2 rfl

/-- What `AddCache` does: it returns an error and the tree as it was, or it
returns no error and the tree with one entry added under the first free
candidate. -/
theorem AddCache_cases (p : cache.Pkg F) (t : String) (conf : Type_ F) :
    (∃ e, AddCache p t conf = ⟨some e, conf⟩) ∨
    (∃ j, j < 10000 ∧ conf.Manager.Caches.has (candidate j) = false ∧
      (∀ i, i < j → conf.Manager.Caches.has (candidate i) = true) ∧
      AddCache p t conf = ⟨none, { conf with
        Manager := { conf.Manager with
          Caches := conf.Manager.Caches ++ [(candidate j, { p.NewConfig with Type_ := t })] } }⟩) := by
  by_cases hr : t ∈ p.Constructors
  · by_cases hex : ∃ k, k < 10000 ∧ conf.Manager.Caches.has (candidate k) = false
    · right
      have hj := Nat.find_spec hex
      have hmin : ∀ i, i < Nat.find hex → conf.Manager.Caches.has (candidate i) = true := by
        intro i hi
        have hn := Nat.find_min hex hi
        by_contra hc
        exact hn ⟨by omega, by simpa using hc⟩
      exact ⟨Nat.find hex, hj.1, hj.2, hmin,
        AddCache_inserted p t conf (Nat.find hex) hr hj.1 hj.2 hmin⟩
    · left
      refine ⟨_, AddCache_exhausted p t conf hr ?_⟩
      intro i hi
      by_contra hc
      exact hex ⟨i, hi, by simpa using hc⟩
  · left
    exact ⟨_, AddCache_rejected p t conf hr⟩

/-- What `AddRatelimit` does: it returns an error and the tree as it was, or it
returns no error and the tree with one entry added under the first free
candidate. -/
theorem AddRatelimit_cases (p : ratelimit.Pkg F) (t : String) (conf : Type_ F) :
    (∃ e, AddRatelimit p t conf = ⟨some e, conf⟩) ∨
    (∃ j, j < 10000 ∧ conf.Manager.RateLimits.has (candidate j) = false ∧
      (∀ i, i < j → conf.Manager.RateLimits.has (candidate i) = true) ∧
      AddRatelimit p t conf = ⟨none, { conf with
        Manager := { conf.Manager with
          RateLimits :=
            conf.Manager.RateLimits ++ [(candidate j, { p.NewConfig with Type_ := t })] } }⟩) := by
  by_cases hr : t ∈ p.Constructors
  · by_cases hex : ∃ k, k < 10000 ∧ conf.Manager.RateLimits.has (candidate k) = false
    · right
      have hj := Nat.find_spec hex
      have hmin : ∀ i, i < Nat.find hex →
          conf.Manager.RateLimits.has (candidate i) = true := by
        intro i hi
        have hn := Nat.find_min hex hi
        by_contra hc
        exact hn ⟨by omega, by simpa using hc⟩
      exact ⟨Nat.find hex, hj.1, hj.2, hmin,
        AddRatelimit_inserted p t conf (Nat.find hex) hr hj.1 hj.2 hmin⟩
    · left
      refine ⟨_, AddRatelimit_exhausted p t conf hr ?_⟩
      intro i hi
      by_contra hc
      exact hex ⟨i, hi, by simpa using hc⟩
  · left
    exact ⟨_, AddRatelimit_rejected p t conf hr⟩

/-- The four facts of C12 for a mapping `m` and the mapping `m ++ [(k, v)]`
with `k` a non-empty key that `m` does not have. -/
theorem grows_of_append {V : Type} (m : GoMap V) (k : String) (v : V) (hk : k ≠ "")
    (hfree : m.has k = false) :
    (∀ a b, m.get? a = some b → GoMap.get? (m ++ [(k, v)]) a = some b) ∧
    (∃ c, c ≠ "" ∧ c ∉ m.keys ∧ GoMap.keys (m ++ [(k, v)]) = m.keys ++ [c] ∧
      (GoMap.keys (m ++ [(k, v)])).length = m.keys.length + 1) ∧
    ((∀ a ∈ m.keys, a ≠ "") → ∀ a ∈ GoMap.keys (m ++ [(k, v)]), a ≠ "") ∧
    (m.keys.Nodup → (GoMap.keys (m ++ [(k, v)])).Nodup) := by
  have hnot := GoMap.not_mem_keys_of_has_false m k hfree
  refine ⟨fun a b h => GoMap.get?_append_of_some m _ a b h,
    ⟨k, hk, hnot, GoMap.keys_append_entry m k v, by simp [GoMap.keys_append_entry]⟩, ?_, ?_⟩
  · intro h a ha
    rw [GoMap.keys_append_entry, List.mem_append, List.mem_singleton] at ha
    rcases ha with ha | ha
    · exact h a ha
    · rw [ha]; exact hk
  · intro h
    rw [GoMap.keys_append_entry]
    exact List.Nodup.append h (List.nodup_singleton k)
      (by
        intro a ha hb
        rw [List.mem_singleton] at hb
        exact hnot (hb ▸ ha))

/-- C12 (keyed insertion only grows the mapping and keeps keys non-empty and
unique).  For every tree and type name, after `AddCache` returns: every key of
the Caches mapping before the call still maps to the same declaration; when an
error is returned the mapping is as before; when no error is returned the keys
are those before the call followed by one new key, which is not the empty
string and was not a key before, so there is exactly one key more; if no key
was empty before the call none is after it; if the keys were pairwise distinct
before the call they are after it.  The same for `AddRatelimit` and the
RateLimits mapping. -/
theorem C12_keyed_insertion_grows {F : Type} (kp : cache.Pkg F) (rp : ratelimit.Pkg F)
    (t : String) (conf : Type_ F) :
    ((∀ k v, conf.Manager.Caches.get? k = some v →
        (AddCache kp t conf).conf.Manager.Caches.get? k = some v) ∧
      ((AddCache kp t conf).err ≠ none →
        (AddCache kp t conf).conf.Manager.Caches = conf.Manager.Caches) ∧
      ((AddCache kp t conf).err = none →
        ∃ k, k ≠ "" ∧ k ∉ conf.Manager.Caches.keys ∧
          (AddCache kp t conf).conf.Manager.Caches.keys = conf.Manager.Caches.keys ++ [k] ∧
          (AddCache kp t conf).conf.Manager.Caches.keys.length
            = conf.Manager.Caches.keys.length + 1) ∧
      ((∀ k ∈ conf.Manager.Caches.keys, k ≠ "") →
        ∀ k ∈ (AddCache kp t conf).conf.Manager.Caches.keys, k ≠ "") ∧
      (conf.Manager.Caches.keys.Nodup →
        (AddCache kp t conf).conf.Manager.Caches.keys.Nodup)) ∧
    ((∀ k v, conf.Manager.RateLimits.get? k = some v →
        (AddRatelimit rp t conf).conf.Manager.RateLimits.get? k = some v) ∧
      ((AddRatelimit rp t conf).err ≠ none →
        (AddRatelimit rp t conf).conf.Manager.RateLimits = conf.Manager.RateLimits) ∧
      ((AddRatelimit rp t conf).err = none →
        ∃ k, k ≠ "" ∧ k ∉ conf.Manager.RateLimits.keys ∧
          (AddRatelimit rp t conf).conf.Manager.RateLimits.keys
            = conf.Manager.RateLimits.keys ++ [k] ∧
          (AddRatelimit rp t conf).conf.Manager.RateLimits.keys.length
            = conf.Manager.RateLimits.keys.length + 1) ∧
      ((∀ k ∈ conf.Manager.RateLimits.keys, k ≠ "") →
        ∀ k ∈ (AddRatelimit rp t conf).conf.Manager.RateLimits.keys, k ≠ "") ∧
      (conf.Manager.RateLimits.keys.Nodup →
        (AddRatelimit rp t conf).conf.Manager.RateLimits.keys.Nodup)) := by
  constructor
  · rcases AddCache_cases kp t conf with ⟨e, h⟩ | ⟨j, _, hfree, _, h⟩
    · rw [h]
      exact ⟨fun _ _ hv => hv, fun _ => rfl, fun he => absurd he (by simp),
        fun hk => hk, fun hn => hn⟩
    · rw [h]
      have g := grows_of_append conf.Manager.Caches (candidate j)
        { kp.NewConfig with Type_ := t } (candidate_ne_empty j) hfree
      exact ⟨g.1, fun he => absurd rfl he, fun _ => g.2.1, g.2.2.1, g.2.2.2⟩
  · rcases AddRatelimit_cases rp t conf with ⟨e, h⟩ | ⟨j, _, hfree, _, h⟩
    · rw [h]
      exact ⟨fun _ _ hv => hv, fun _ => rfl, fun he => absurd he (by simp),
        fun hk => hk, fun hn => hn⟩
    · rw [h]
      have g := grows_of_append conf.Manager.RateLimits (candidate j)
        { rp.NewConfig with Type_ := t } (candidate_ne_empty j) hfree
      exact ⟨g.1, fun he => absurd rfl he, fun _ => g.2.1, g.2.2.1, g.2.2.2⟩

/-- C12 at `Example.keyed`: the cache `example` is as before, the keys of the
caches become `example`, `example1`, `example2`, and those of the rate limits
`example1`, `example`. -/
theorem C12_keyed_insertion_grows_witness :
    (AddCache Example.caches "memory" Example.keyed).conf.Manager.Caches.get? "example"
      = some ⟨"redis", [("redis.url", "tcp://localhost:6379")]⟩ ∧
    (∀ k ∈ (AddCache Example.caches "memory" Example.keyed).conf.Manager.Caches.keys,
      k ≠ "") ∧
    (AddCache Example.caches "memory" Example.keyed).conf.Manager.Caches.keys.Nodup ∧
    (AddRatelimit Example.ratelimits "local" Example.keyed).conf.Manager.RateLimits.keys.Nodup :=
  have h := C12_keyed_insertion_grows Example.caches Example.ratelimits "memory" Example.keyed
  have g := C12_keyed_insertion_grows Example.caches Example.ratelimits "local" Example.keyed
  ⟨h.1.1 "example" _ rfl, h.1.2.2.2.1 (by decide), h.1.2.2.2.2 (by decide),
    g.2.2.2.2.2 (by decide)⟩

end config

/-! ## Endpoint order across insertions -/

namespace config

variable {F : Type}

/-- A call of `AddInput` that returns no error leaves a broker-typed slot. -/
theorem AddInput_broker_typed (p : input.Pkg F) (t : String) (conf : Type_ F)
    (h : (AddInput p t conf).err = none) :
    (AddInput p t conf).conf.Input.Type_ = p.TypeBroker := by
  by_cases hv : t = "benthos_lab" ∨ t ∈ p.Constructors
  · by_cases hD : conf.Input.Type_ = p.TypeBroker
    · rw [AddInput_append p t conf hv hD]
      simpa using hD
    · by_cases hE : t = p.TypeBroker
      · subst hE
        rw [AddInput_wrap p conf hv hD]
        simp
      · rw [AddInput_promote p t conf hv hD hE]
        simp
  · rw [AddInput_rejected p t conf (fun h => hv (Or.inl h)) (fun h => hv (Or.inr h))] at h
    exact absurd h (by simp)

/-- A call of `AddOutput` that returns no error leaves a broker-typed slot. -/
theorem AddOutput_broker_typed (p : output.Pkg F) (t : String) (conf : Type_ F)
    (h : (AddOutput p t conf).err = none) :
    (AddOutput p t conf).conf.Output.Type_ = p.TypeBroker := by
  by_cases hv : t = "benthos_lab" ∨ t ∈ p.Constructors
  · by_cases hD : conf.Output.Type_ = p.TypeBroker
    · rw [AddOutput_append p t conf hv hD]
      simpa using hD
    · by_cases hE : t = p.TypeBroker
      · subst hE
        rw [AddOutput_wrap p conf hv hD]
        simp
      · rw [AddOutput_promote p t conf hv hD hE]
        simp
  · rw [AddOutput_rejected p t conf (fun h => hv (Or.inl h)) (fun h => hv (Or.inr h))] at h
    exact absurd h (by simp)

/-- Calls of `AddInput` with registered types on a broker-typed slot: each
returns no error, and the new declarations follow the nested inputs in the
order of the calls. -/
theorem AddInput_calls_on_broker (p : input.Pkg F) (Es : List String) :
    ∀ conf : Type_ F, conf.Input.Type_ = p.TypeBroker → (∀ E ∈ Es, E ∈ p.Constructors) →
      (∀ r ∈ calls (AddInput p) Es conf, r.err = none ∧ r.conf.Input.Type_ = p.TypeBroker) ∧
      (after (AddInput p) Es conf).Input.Type_ = p.TypeBroker ∧
      (after (AddInput p) Es conf).Input.Broker.Inputs
        = conf.Input.Broker.Inputs ++ Es.map (fun E => p.NewConfig.setType E) := by
  induction Es with
  | nil =>
    intro conf hD _
    exact ⟨fun r hr => absurd hr (List.not_mem_nil r), hD, by simp [after]⟩
  | cons E Es ih =>
    intro conf hD hreg
    have hE : E ∈ p.Constructors := hreg E (List.mem_cons_self E Es)
    have hstep := AddInput_append p E conf (Or.inr hE) hD
    have hD2 : (AddInput p E conf).conf.Input.Type_ = p.TypeBroker := by
      rw [hstep]; simpa using hD
    have hrest := ih (AddInput p E conf).conf hD2
      (fun E2 h2 => hreg E2 (List.mem_cons_of_mem E h2))
    refine ⟨?_, hrest.2.1, ?_⟩
    · intro r hr
      simp only [calls, List.mem_cons] at hr
      rcases hr with hr | hr
      · subst hr
        exact ⟨by rw [hstep], hD2⟩
      · exact hrest.1 r hr
    · show (after (AddInput p) Es (AddInput p E conf).conf).Input.Broker.Inputs = _
      rw [hrest.2.2, hstep]
      simp

/-- Calls of `AddOutput` with registered types on a broker-typed slot: each
returns no error, and the new declarations follow the nested outputs in the
order of the calls. -/
theorem AddOutput_calls_on_broker (p : output.Pkg F) (Es : List String) :
    ∀ conf : Type_ F, conf.Output.Type_ = p.TypeBroker → (∀ E ∈ Es, E ∈ p.Constructors) →
      (∀ r ∈ calls (AddOutput p) Es conf,
        r.err = none ∧ r.conf.Output.Type_ = p.TypeBroker) ∧
      (after (AddOutput p) Es conf).Output.Type_ = p.TypeBroker ∧
      (after (AddOutput p) Es conf).Output.Broker.Outputs
        = conf.Output.Broker.Outputs ++ Es.map (fun E => p.NewConfig.setType E) := by
  induction Es with
  | nil =>
    intro conf hD _
    exact ⟨fun r hr => absurd hr (List.not_mem_nil r), hD, by simp [after]⟩
  | cons E Es ih =>
    intro conf hD hreg
    have hE : E ∈ p.Constructors := hreg E (List.mem_cons_self E Es)
    have hstep := AddOutput_append p E conf (Or.inr hE) hD
    have hD2 : (AddOutput p E conf).conf.Output.Type_ = p.TypeBroker := by
      rw [hstep]; simpa using hD
    have hrest := ih (AddOutput p E conf).conf hD2
      (fun E2 h2 => hreg E2 (List.mem_cons_of_mem E h2))
    refine ⟨?_, hrest.2.1, ?_⟩
    · intro r hr
      simp only [calls, List.mem_cons] at hr
      rcases hr with hr | hr
      · subst hr
        exact ⟨by rw [hstep], hD2⟩
      · exact hrest.1 r hr
    · show (after (AddOutput p) Es (AddOutput p E conf).conf).Output.Broker.Outputs = _
      rw [hrest.2.2, hstep]
      simp

/-- C13 (endpoint order is preserved across any number of insertions).  When
the Input slot holds a declaration `D` whose type is not the broker type, the
default input declaration has no nested inputs, and `Es` is a non-empty list of
registered input types other than the broker type, then the calls `AddInput E`
for `E` in `Es`, in this order, all return no error, each leaves the slot
broker-typed, and after them the slot is broker-typed with nested inputs
exactly `D` followed by the default declarations typed with the names of `Es`
in the order of the calls.  Whatever the tree and the type, a call of
`AddInput` that returns no error leaves the slot broker-typed.  The same for
`AddOutput` and the Output slot. -/
theorem C13_endpoint_order {F : Type} (ip : input.Pkg F) (op : output.Pkg F)
    (conf : Type_ F) (Es : List String) (hne : Es ≠ []) :
    (conf.Input.Type_ ≠ ip.TypeBroker → ip.NewConfig.Broker.Inputs = [] →
      (∀ E ∈ Es, E ∈ ip.Constructors ∧ E ≠ ip.TypeBroker) →
        (∀ r ∈ calls (AddInput ip) Es conf,
          r.err = none ∧ r.conf.Input.Type_ = ip.TypeBroker) ∧
        (calls (AddInput ip) Es conf).length = Es.length ∧
        (after (AddInput ip) Es conf).Input.Type_ = ip.TypeBroker ∧
        (after (AddInput ip) Es conf).Input.Broker.Inputs
          = conf.Input :: Es.map (fun E => ip.NewConfig.setType E)) ∧
    (∀ t c, (AddInput ip t c).err = none → (AddInput ip t c).conf.Input.Type_ = ip.TypeBroker) ∧
    (conf.Output.Type_ ≠ op.TypeBroker → op.NewConfig.Broker.Outputs = [] →
      (∀ E ∈ Es, E ∈ op.Constructors ∧ E ≠ op.TypeBroker) →
        (∀ r ∈ calls (AddOutput op) Es conf,
          r.err = none ∧ r.conf.Output.Type_ = op.TypeBroker) ∧
        (calls (AddOutput op) Es conf).length = Es.length ∧
        (after (AddOutput op) Es conf).Output.Type_ = op.TypeBroker ∧
        (after (AddOutput op) Es conf).Output.Broker.Outputs
          = conf.Output :: Es.map (fun E => op.NewConfig.setType E)) ∧
    (∀ t c, (AddOutput op t c).err = none →
      (AddOutput op t c).conf.Output.Type_ = op.TypeBroker) := by
  have hlen : ∀ (f : String → Type_ F → Ret F) (l : List String) (c : Type_ F),
      (calls f l c).length = l.length := by
    intro f l
    induction l with
    | nil => intro c; rfl
    | cons a l ih => intro c; simp [calls, ih]
  cases Es with
  | nil => exact absurd rfl hne
  | cons E Es =>
    refine ⟨?_, AddInput_broker_typed ip, ?_, AddOutput_broker_typed op⟩
    · intro hD hdef hreg
      have hE := hreg E (List.mem_cons_self E Es)
      have hstep := AddInput_promote ip E conf (Or.inr hE.1) hD hE.2
      have hD2 : (AddInput ip E conf).conf.Input.Type_ = ip.TypeBroker := by
        rw [hstep]; simp
      have hrest := AddInput_calls_on_broker ip Es (AddInput ip E conf).conf hD2
        (fun E2 h2 => (hreg E2 (List.mem_cons_of_mem E h2)).1)
      refine ⟨?_, hlen _ _ _, hrest.2.1, ?_⟩
      · intro r hr
        simp only [calls, List.mem_cons] at hr
        rcases hr with hr | hr
        · subst hr
          exact ⟨by rw [hstep], hD2⟩
        · exact hrest.1 r hr
      · show (after (AddInput ip) Es (AddInput ip E conf).conf).Input.Broker.Inputs = _
        rw [hrest.2.2, hstep]
        simp [hdef]
    · intro hD hdef hreg
      have hE := hreg E (List.mem_cons_self E Es)
      have hstep := AddOutput_promote op E conf (Or.inr hE.1) hD hE.2
      have hD2 : (AddOutput op E conf).conf.Output.Type_ = op.TypeBroker := by
        rw [hstep]; simp
      have hrest := AddOutput_calls_on_broker op Es (AddOutput op E conf).conf hD2
        (fun E2 h2 => (hreg E2 (List.mem_cons_of_mem E h2)).1)
      refine ⟨?_, hlen _ _ _, hrest.2.1, ?_⟩
      · intro r hr
        simp only [calls, List.mem_cons] at hr
        rcases hr with hr | hr
        · subst hr
          exact ⟨by rw [hstep], hD2⟩
        · exact hrest.1 r hr
      · show (after (AddOutput op) Es (AddOutput op E conf).conf).Output.Broker.Outputs = _
        rw [hrest.2.2, hstep]
        simp [hdef]

/-- C13 at `Example.tree`: three inputs, then three outputs, added to the
`kafka` input and the `stdout` output. -/
theorem C13_endpoint_order_witness :
    ((after (AddInput Example.inputs) ["file", "http_server", "file"]
        Example.tree).Input.Type_ = "broker" ∧
      (after (AddInput Example.inputs) ["file", "http_server", "file"]
        Example.tree).Input.Broker.Inputs
        = [Example.tree.Input, Example.inputs.NewConfig.setType "file",
           Example.inputs.NewConfig.setType "http_server",
           Example.inputs.NewConfig.setType "file"]) ∧
    ((after (AddOutput Example.outputs) ["kafka", "file", "kafka"]
        Example.tree).Output.Type_ = "broker" ∧
      (after (AddOutput Example.outputs) ["kafka", "file", "kafka"]
        Example.tree).Output.Broker.Outputs
        = [Example.tree.Output, Example.outputs.NewConfig.setType "kafka",
           Example.outputs.NewConfig.setType "file",
           Example.outputs.NewConfig.setType "kafka"]) :=
  have h := (C13_endpoint_order Example.inputs Example.outputs Example.tree
    ["file", "http_server", "file"] (by decide)).1 (by decide) rfl (by decide)
  have g := (C13_endpoint_order Example.inputs Example.outputs Example.tree
    ["kafka", "file", "kafka"] (by decide)).2.2.1 (by decide) rfl (by decide)
  ⟨⟨h.2.2.1, h.2.2.2⟩, ⟨g.2.2.1, g.2.2.2⟩⟩

end config

/-! ## The candidate keys are pairwise distinct -/

namespace config

/-- The digits that `Nat.toDigitsCore` produces come before the ones it is
given. -/
theorem toDigitsCore_append (fuel : Nat) :
    ∀ (n : Nat) (ds : List Char),
      Nat.toDigitsCore 10 fuel n ds = Nat.toDigitsCore 10 fuel n [] ++ ds := by
  induction fuel with
  | zero => intro n ds; rfl
  | succ fuel ih =>
    intro n ds
    simp only [Nat.toDigitsCore]
    split
    · rfl
    · rw [ih (n / 10) (Nat.digitChar (n % 10) :: ds), ih (n / 10) [Nat.digitChar (n % 10)]]
      simp

/-- The value of a digit character. -/
theorem digitChar_value (k : Nat) (h : k < 10) : (Nat.digitChar k).toNat - 48 = k := by
  interval_cases k <;> rfl

/-- The value of a string of digits followed by one more digit. -/
theorem decimalValue_append_digit (cs : List Char) (c : Char) :
    decimalValue (cs ++ [c]) = 10 * decimalValue cs + (c.toNat - 48) := by
  simp [decimalValue, List.foldl_append]

/-- The digits of `n` denote `n`. -/
theorem decimalValue_toDigitsCore (fuel : Nat) :
    ∀ n : Nat, n < fuel → decimalValue (Nat.toDigitsCore 10 fuel n []) = n := by
  induction fuel with
  | zero => intro n h; omega
  | succ fuel ih =>
    intro n h
    simp only [Nat.toDigitsCore]
    split
    · rename_i h0
      have hlt : n < 10 := by omega
      have hn : n % 10 = n := Nat.mod_eq_of_lt hlt
      rw [hn]
      simp [decimalValue, digitChar_value n hlt]
    · rename_i h0
      rw [toDigitsCore_append fuel (n / 10) [Nat.digitChar (n % 10)],
        decimalValue_append_digit, ih (n / 10) (by omega),
        digitChar_value (n % 10) (Nat.mod_lt n (by omega))]
      omega

/-- The decimal form of `n` denotes `n`. -/
theorem decimalValue_repr (n : Nat) : decimalValue (toString n).data = n := by
  show decimalValue (Nat.toDigitsCore 10 (n + 1) n []) = n
  exact decimalValue_toDigitsCore (n + 1) n (Nat.lt_succ_self n)

/-- The candidate of index `i` is `"example"` followed by the decimal form of
`i`, for `i ≥ 1`, and by nothing for `i = 0`. -/
theorem candidate_data (i : Nat) :
    (candidate i).data = "example".data ++ (if i = 0 then [] else (toString i).data) := by
  unfold candidate
  split
  · simp
  · simp

/-- Different indices give different candidate keys. -/
theorem candidate_injective (i j : Nat) (h : candidate i = candidate j) : i = j := by
  have h2 := congrArg String.data h
  rw [candidate_data, candidate_data] at h2
  have h3 := List.append_cancel_left h2
  have hpos : ∀ n : Nat, n ≠ 0 → (toString n).data ≠ [] := by
    intro n hn he
    have hv := decimalValue_repr n
    rw [he] at hv
    exact hn hv.symm
  by_cases hi : i = 0
  · by_cases hj : j = 0
    · rw [hi, hj]
    · rw [if_pos hi, if_neg hj] at h3
      exact absurd h3.symm (hpos j hj)
  · by_cases hj : j = 0
    · rw [if_neg hi, if_pos hj] at h3
      exact absurd h3 (hpos i hi)
    · rw [if_neg hi, if_neg hj] at h3
      have hv := congrArg decimalValue h3
      rw [decimalValue_repr, decimalValue_repr] at hv
      exact hv

/-- The first `n` candidate keys are pairwise distinct. -/
theorem candidates_nodup (n : Nat) : ((List.range n).map candidate).Nodup :=
  List.Nodup.map (fun i j h => candidate_injective i j h) (List.nodup_range n)

end config

/-! ## Successive calls walk the candidate sequence -/

namespace config

variable {F : Type}

/-- In a mapping whose keys are the first `m` candidates, the first free
candidate is the one of index `m`. -/
theorem first_free_of_keys {V : Type} (M : GoMap V) (m : Nat)
    (hk : M.keys = (List.range m).map candidate) :
    M.has (candidate m) = false ∧ ∀ i, i < m → M.has (candidate i) = true := by
  constructor
  · cases hh : M.has (candidate m) with
    | false => rfl
    | true =>
      rw [GoMap.has_iff_mem_keys, hk, List.mem_map] at hh
      obtain ⟨i, hi, he⟩ := hh
      have := candidate_injective i m he
      rw [List.mem_range] at hi
      omega
  · intro i hi
    rw [GoMap.has_iff_mem_keys, hk]
    exact List.mem_map.2 ⟨i, List.mem_range.2 hi, rfl⟩

/-- Calls of `AddCache` with registered types on a tree whose Caches keys are
the first `m` candidates, as long as candidates remain: each returns no error
and the call number `k` adds its declaration under the candidate of index
`m + k`. -/
theorem AddCache_walk (p : cache.Pkg F) (Ts : List String) :
    ∀ (m : Nat) (conf : Type_ F), conf.Manager.Caches.keys = (List.range m).map candidate →
      m + Ts.length ≤ 10000 → (∀ T ∈ Ts, T ∈ p.Constructors) →
      (∀ r ∈ calls (AddCache p) Ts conf, r.err = none) ∧
      (after (AddCache p) Ts conf).Manager.Caches.keys
        = (List.range (m + Ts.length)).map candidate ∧
      (after (AddCache p) Ts conf).Manager.Caches
        = conf.Manager.Caches ++ List.zipWith
            (fun k T => (candidate k, ({ p.NewConfig with Type_ := T } : cache.Config F)))
            (List.range' m Ts.length) Ts := by
  induction Ts with
  | nil =>
    intro m conf hk _ _
    exact ⟨fun r hr => absurd hr (List.not_mem_nil r), by simpa [after] using hk,
      by simp [after]⟩
  | cons T Ts ih =>
    intro m conf hk hlen hreg
    have hlen2 : m + (Ts.length + 1) ≤ 10000 := by simpa using hlen
    have hT : T ∈ p.Constructors := hreg T (List.mem_cons_self T Ts)
    have hfree := first_free_of_keys conf.Manager.Caches m hk
    have hstep := AddCache_inserted p T conf m hT (by omega) hfree.1 hfree.2
    have hk2 : (AddCache p T conf).conf.Manager.Caches.keys
        = (List.range (m + 1)).map candidate := by
      rw [hstep]
      simp only [GoMap.keys_append_entry, hk, List.range_succ, List.map_append,
        List.map_cons, List.map_nil]
    have hrest := ih (m + 1) (AddCache p T conf).conf hk2 (by omega)
      (fun T2 h2 => hreg T2 (List.mem_cons_of_mem T h2))
    refine ⟨?_, ?_, ?_⟩
    · intro r hr
      simp only [calls, List.mem_cons] at hr
      rcases hr with hr | hr
      · subst hr
        rw [hstep]
      · exact hrest.1 r hr
    · show (after (AddCache p) Ts (AddCache p T conf).conf).Manager.Caches.keys = _
      rw [hrest.2.1]
      have : m + 1 + Ts.length = m + (T :: Ts).length := by simp; omega
      rw [this]
    · show (after (AddCache p) Ts (AddCache p T conf).conf).Manager.Caches = _
      rw [hrest.2.2, hstep]
      simp [List.range'_succ]

/-- Calls of `AddRatelimit` with registered types on a tree whose RateLimits
keys are the first `m` candidates, as long as candidates remain: each returns
no error and the call number `k` adds its declaration under the candidate of
index `m + k`. -/
theorem AddRatelimit_walk (p : ratelimit.Pkg F) (Ts : List String) :
    ∀ (m : Nat) (conf : Type_ F),
      conf.Manager.RateLimits.keys = (List.range m).map candidate →
      m + Ts.length ≤ 10000 → (∀ T ∈ Ts, T ∈ p.Constructors) →
      (∀ r ∈ calls (AddRatelimit p) Ts conf, r.err = none) ∧
      (after (AddRatelimit p) Ts conf).Manager.RateLimits.keys
        = (List.range (m + Ts.length)).map candidate ∧
      (after (AddRatelimit p) Ts conf).Manager.RateLimits
        = conf.Manager.RateLimits ++ List.zipWith
            (fun k T => (candidate k, ({ p.NewConfig with Type_ := T } : ratelimit.Config F)))
            (List.range' m Ts.length) Ts := by
  induction Ts with
  | nil =>
    intro m conf hk _ _
    exact ⟨fun r hr => absurd hr (List.not_mem_nil r), by simpa [after] using hk,
      by simp [after]⟩
  | cons T Ts ih =>
    intro m conf hk hlen hreg
    have hlen2 : m + (Ts.length + 1) ≤ 10000 := by simpa using hlen
    have hT : T ∈ p.Constructors := hreg T (List.mem_cons_self T Ts)
    have hfree := first_free_of_keys conf.Manager.RateLimits m hk
    have hstep := AddRatelimit_inserted p T conf m hT (by omega) hfree.1 hfree.2
    have hk2 : (AddRatelimit p T conf).conf.Manager.RateLimits.keys
        = (List.range (m + 1)).map candidate := by
      rw [hstep]
      simp only [GoMap.keys_append_entry, hk, List.range_succ, List.map_append,
        List.map_cons, List.map_nil]
    have hrest := ih (m + 1) (AddRatelimit p T conf).conf hk2 (by omega)
      (fun T2 h2 => hreg T2 (List.mem_cons_of_mem T h2))
    refine ⟨?_, ?_, ?_⟩
    · intro r hr
      simp only [calls, List.mem_cons] at hr
      rcases hr with hr | hr
      · subst hr
        rw [hstep]
      · exact hrest.1 r hr
    · show (after (AddRatelimit p) Ts (AddRatelimit p T conf).conf).Manager.RateLimits.keys
        = _
      rw [hrest.2.1]
      have : m + 1 + Ts.length = m + (T :: Ts).length := by simp; omega
      rw [this]
    · show (after (AddRatelimit p) Ts (AddRatelimit p T conf).conf).Manager.RateLimits = _
      rw [hrest.2.2, hstep]
      simp [List.range'_succ]

end config

namespace config

/-- C14 (the candidate sequence has 10,000 distinct keys and successive calls
walk it in order).  The 10,000 candidates `"example"`, `"example1"`, ...,
`"example9999"` are pairwise distinct.  From a tree whose Caches mapping is
empty, the calls `AddCache T` for `T` in a list `Ts` of at most 10,000
registered types, in this order, all return no error; after them the keys of
the mapping are the first `Ts.length` candidates, one per call, and the call
number `k`, counting from 0, has put its declaration under the candidate of
index `k`.  When `Ts` has 10,000 types, one more call with a registered type
returns the error `what the hell are you doing?` and the tree as it was.  The
same for `AddRatelimit` and the RateLimits mapping. -/
theorem C14_candidate_walk {F : Type} (kp : cache.Pkg F) (rp : ratelimit.Pkg F)
    (conf : Type_ F) (Ts : List String) :
    (((List.range 10000).map candidate).Nodup ∧
      ((List.range 10000).map candidate).length = 10000 ∧
      ∀ i j, candidate i = candidate j → i = j) ∧
    (conf.Manager.Caches = [] → (∀ T ∈ Ts, T ∈ kp.Constructors) → Ts.length ≤ 10000 →
      (∀ r ∈ calls (AddCache kp) Ts conf, r.err = none) ∧
      (after (AddCache kp) Ts conf).Manager.Caches.keys
        = (List.range Ts.length).map candidate ∧
      (after (AddCache kp) Ts conf).Manager.Caches.keys.length = Ts.length ∧
      (after (AddCache kp) Ts conf).Manager.Caches
        = List.zipWith
            (fun k T => (candidate k, ({ kp.NewConfig with Type_ := T } : cache.Config F)))
            (List.range Ts.length) Ts ∧
      (Ts.length = 10000 → ∀ T, T ∈ kp.Constructors →
        AddCache kp T (after (AddCache kp) Ts conf)
          = ⟨some "what the hell are you doing?", after (AddCache kp) Ts conf⟩)) ∧
    (conf.Manager.RateLimits = [] → (∀ T ∈ Ts, T ∈ rp.Constructors) → Ts.length ≤ 10000 →
      (∀ r ∈ calls (AddRatelimit rp) Ts conf, r.err = none) ∧
      (after (AddRatelimit rp) Ts conf).Manager.RateLimits.keys
        = (List.range Ts.length).map candidate ∧
      (after (AddRatelimit rp) Ts conf).Manager.RateLimits.keys.length = Ts.length ∧
      (after (AddRatelimit rp) Ts conf).Manager.RateLimits
        = List.zipWith
            (fun k T => (candidate k, ({ rp.NewConfig with Type_ := T } : ratelimit.Config F)))
            (List.range Ts.length) Ts ∧
      (Ts.length = 10000 → ∀ T, T ∈ rp.Constructors →
        AddRatelimit rp T (after (AddRatelimit rp) Ts conf)
          = ⟨some "what the hell are you doing?", after (AddRatelimit rp) Ts conf⟩)) := by
  refine ⟨⟨candidates_nodup 10000, by simp, candidate_injective⟩, ?_, ?_⟩
  · intro hM hreg hlen
    have hw := AddCache_walk kp Ts 0 conf (by rw [hM]; rfl) (by omega) hreg
    rw [Nat.zero_add] at hw
    refine ⟨hw.1, hw.2.1, by rw [hw.2.1]; simp, ?_, ?_⟩
    · rw [hw.2.2, hM, List.nil_append, List.range_eq_range']
    · intro h10 T hT
      have hfull := first_free_of_keys (after (AddCache kp) Ts conf).Manager.Caches
        Ts.length hw.2.1
      exact AddCache_exhausted kp T _ hT (fun i hi => hfull.2 i (by omega))
  · intro hM hreg hlen
    have hw := AddRatelimit_walk rp Ts 0 conf (by rw [hM]; rfl) (by omega) hreg
    rw [Nat.zero_add] at hw
    refine ⟨hw.1, hw.2.1, by rw [hw.2.1]; simp, ?_, ?_⟩
    · rw [hw.2.2, hM, List.nil_append, List.range_eq_range']
    · intro h10 T hT
      have hfull := first_free_of_keys (after (AddRatelimit rp) Ts conf).Manager.RateLimits
        Ts.length hw.2.1
      exact AddRatelimit_exhausted rp T _ hT (fun i hi => hfull.2 i (by omega))

/-- C14 at `Example.tree`, which has no caches and no rate limits: three calls
of `AddCache` give the keys `example`, `example1`, `example2`; after 10,000
calls of `AddCache` and of `AddRatelimit` one more call returns the exhaustion
error and changes nothing. -/
theorem C14_candidate_walk_witness :
    (after (AddCache Example.caches) ["memory", "redis", "memory"]
        Example.tree).Manager.Caches.keys = ["example", "example1", "example2"] ∧
    AddCache Example.caches "redis"
        (after (AddCache Example.caches) (List.replicate 10000 "memory") Example.tree)
      = ⟨some "what the hell are you doing?",
          after (AddCache Example.caches) (List.replicate 10000 "memory") Example.tree⟩ ∧
    AddRatelimit Example.ratelimits "local"
        (after (AddRatelimit Example.ratelimits) (List.replicate 10000 "local") Example.tree)
      = ⟨some "what the hell are you doing?",
          after (AddRatelimit Example.ratelimits) (List.replicate 10000 "local")
            Example.tree⟩ :=
  ⟨((C14_candidate_walk Example.caches Example.ratelimits Example.tree
      ["memory", "redis", "memory"]).2.1 rfl (by decide) (by decide)).2.1,
    ((C14_candidate_walk Example.caches Example.ratelimits Example.tree
      (List.replicate 10000 "memory")).2.1 rfl
      (fun T hT => by rw [List.eq_of_mem_replicate hT]; decide)
      (by rw [List.length_replicate])).2.2.2.2 (List.length_replicate 10000 "memory")
      "redis" (by decide),
    ((C14_candidate_walk Example.caches Example.ratelimits Example.tree
      (List.replicate 10000 "local")).2.2 rfl
      (fun T hT => by rw [List.eq_of_mem_replicate hT]; decide)
      (by rw [List.length_replicate])).2.2.2.2 (List.length_replicate 10000 "local")
      "local" (by decide)⟩

end config

/-! ## The unrecognised-type message, and brokers nested in brokers -/

namespace config

variable {F : Type}

/-- The message `<category> type '<t>' not recognised` has the category word
and the type name in it. -/
theorem unrecognised_contains (cat t : String) :
    (∃ a b, cat ++ " type '" ++ t ++ "' not recognised" = a ++ cat ++ b) ∧
    (∃ a b, cat ++ " type '" ++ t ++ "' not recognised" = a ++ t ++ b) := by
  constructor
  · refine ⟨"", " type '" ++ t ++ "' not recognised", ?_⟩
    apply String.ext
    simp [String.data_append]
  · refine ⟨cat ++ " type '", "' not recognised", ?_⟩
    apply String.ext
    simp [String.data_append]

/-- C15 (the unrecognised-type error carries the category and the offending
type name).  For every type name `t` that the type check rejects (`t` is not in
the registry, and for `AddInput` and `AddOutput` is not `"benthos_lab"`), the
error that `AddInput`, `AddOutput`, `AddProcessor`, `AddCondition`, `AddCache`
and `AddRatelimit` return is the message `<category> type '<t>' not recognised`
with the category word `input`, `output`, `processor`, `condition`, `cache` and
`ratelimit`; the category word and `t` are both parts of the message. -/
theorem C15_error_message {F : Type} (ip : input.Pkg F) (op : output.Pkg F)
    (pp : processor.Pkg F) (cp : condition.Pkg F) (kp : cache.Pkg F) (rp : ratelimit.Pkg F)
    (t : String) (conf : Type_ F) :
    (t ≠ "benthos_lab" → t ∉ ip.Constructors →
      ∃ msg, (AddInput ip t conf).err = some msg ∧
        msg = "input type '" ++ t ++ "' not recognised" ∧
        (∃ a b, msg = a ++ "input" ++ b) ∧ (∃ a b, msg = a ++ t ++ b)) ∧
    (t ≠ "benthos_lab" → t ∉ op.Constructors →
      ∃ msg, (AddOutput op t conf).err = some msg ∧
        msg = "output type '" ++ t ++ "' not recognised" ∧
        (∃ a b, msg = a ++ "output" ++ b) ∧ (∃ a b, msg = a ++ t ++ b)) ∧
    (t ∉ pp.Constructors →
      ∃ msg, (AddProcessor pp t conf).err = some msg ∧
        msg = "processor type '" ++ t ++ "' not recognised" ∧
        (∃ a b, msg = a ++ "processor" ++ b) ∧ (∃ a b, msg = a ++ t ++ b)) ∧
    (t ∉ cp.Constructors →
      ∃ msg, (AddCondition cp pp t conf).err = some msg ∧
        msg = "condition type '" ++ t ++ "' not recognised" ∧
        (∃ a b, msg = a ++ "condition" ++ b) ∧ (∃ a b, msg = a ++ t ++ b)) ∧
    (t ∉ kp.Constructors →
      ∃ msg, (AddCache kp t conf).err = some msg ∧
        msg = "cache type '" ++ t ++ "' not recognised" ∧
        (∃ a b, msg = a ++ "cache" ++ b) ∧ (∃ a b, msg = a ++ t ++ b)) ∧
    (t ∉ rp.Constructors →
      ∃ msg, (AddRatelimit rp t conf).err = some msg ∧
        msg = "ratelimit type '" ++ t ++ "' not recognised" ∧
        (∃ a b, msg = a ++ "ratelimit" ++ b) ∧ (∃ a b, msg = a ++ t ++ b)) := by
  refine ⟨?_, ?_, ?_, ?_, ?_, ?_⟩
  · intro hs hr
    rw [AddInput_rejected ip t conf hs hr]
    exact ⟨_, rfl, rfl, unrecognised_contains "input" t⟩
  · intro hs hr
    rw [AddOutput_rejected op t conf hs hr]
    exact ⟨_, rfl, rfl, unrecognised_contains "output" t⟩
  · intro hr
    rw [AddProcessor_rejected pp t conf hr]
    exact ⟨_, rfl, rfl, unrecognised_contains "processor" t⟩
  · intro hr
    rw [AddCondition_rejected cp pp t conf hr]
    exact ⟨_, rfl, rfl, unrecognised_contains "condition" t⟩
  · intro hr
    rw [AddCache_rejected kp t conf hr]
    exact ⟨_, rfl, rfl, unrecognised_contains "cache" t⟩
  · intro hr
    rw [AddRatelimit_rejected rp t conf hr]
    exact ⟨_, rfl, rfl, unrecognised_contains "ratelimit" t⟩

/-- C15 at `Example.tree` and the unregistered name `"kafak"`: the message of
`AddInput` and that of `AddRatelimit`. -/
theorem C15_error_message_witness :
    (∃ msg, (AddInput Example.inputs "kafak" Example.tree).err = some msg ∧
      msg = "input type 'kafak' not recognised" ∧
      (∃ a b, msg = a ++ "input" ++ b) ∧ (∃ a b, msg = a ++ "kafak" ++ b)) ∧
    (∃ msg, (AddRatelimit Example.ratelimits "kafak" Example.tree).err = some msg ∧
      msg = "ratelimit type 'kafak' not recognised" ∧
      (∃ a b, msg = a ++ "ratelimit" ++ b) ∧ (∃ a b, msg = a ++ "kafak" ++ b)) :=
  have h := C15_error_message Example.inputs Example.outputs Example.processors
    Example.conditions Example.caches Example.ratelimits "kafak" Example.tree
  ⟨h.1 (by decide) (by decide), h.2.2.2.2.2 (by decide)⟩

/-- C16 (broker suppression applies only when promotion just happened).  When
the Input slot is broker-typed already, with nested inputs `L`, and the broker
type is a registered input type, `AddInput` of the broker type returns no error
and leaves the slot broker-typed with nested inputs `L ++ [b]`, one more than
before, where `b` is the default declaration with its type set to the broker
type: a broker nested in the broker.  The same for `AddOutput` and the Output
slot. -/
theorem C16_nested_broker {F : Type} (ip : input.Pkg F) (op : output.Pkg F)
    (conf : Type_ F) :
    (conf.Input.Type_ = ip.TypeBroker → ip.TypeBroker ∈ ip.Constructors →
      (AddInput ip ip.TypeBroker conf).err = none ∧
      (AddInput ip ip.TypeBroker conf).conf.Input.Type_ = ip.TypeBroker ∧
      (AddInput ip ip.TypeBroker conf).conf.Input.Broker.Inputs
        = conf.Input.Broker.Inputs ++ [ip.NewConfig.setType ip.TypeBroker] ∧
      (ip.NewConfig.setType ip.TypeBroker).Type_ = ip.TypeBroker ∧
      (AddInput ip ip.TypeBroker conf).conf.Input.Broker.Inputs.length
        = conf.Input.Broker.Inputs.length + 1) ∧
    (conf.Output.Type_ = op.TypeBroker → op.TypeBroker ∈ op.Constructors →
      (AddOutput op op.TypeBroker conf).err = none ∧
      (AddOutput op op.TypeBroker conf).conf.Output.Type_ = op.TypeBroker ∧
      (AddOutput op op.TypeBroker conf).conf.Output.Broker.Outputs
        = conf.Output.Broker.Outputs ++ [op.NewConfig.setType op.TypeBroker] ∧
      (op.NewConfig.setType op.TypeBroker).Type_ = op.TypeBroker ∧
      (AddOutput op op.TypeBroker conf).conf.Output.Broker.Outputs.length
        = conf.Output.Broker.Outputs.length + 1) := by
  constructor
  · intro hD hreg
    rw [AddInput_append ip ip.TypeBroker conf (Or.inr hreg) hD]
    simp [hD]
  · intro hD hreg
    rw [AddOutput_append op op.TypeBroker conf (Or.inr hreg) hD]
    simp [hD]

/-- C16 at `Example.brokered`: a third, broker-typed declaration follows the
two endpoints of each broker. -/
theorem C16_nested_broker_witness :
    ((AddInput Example.inputs "broker" Example.brokered).err = none ∧
      (AddInput Example.inputs "broker" Example.brokered).conf.Input.Broker.Inputs
        = [.mk "kafka" ⟨[], []⟩ [("kafka.topic", "orders")], .mk "file" ⟨[], []⟩ [],
           .mk "broker" ⟨[], [("copies", "1")]⟩ [("stdin.multipart", "false")]]) ∧
    ((AddOutput Example.outputs "broker" Example.brokered).err = none ∧
      (AddOutput Example.outputs "broker" Example.brokered).conf.Output.Broker.Outputs
        = [.mk "stdout" ⟨[], []⟩ [], .mk "file" ⟨[], []⟩ [("file.path", "out.txt")],
           .mk "broker" ⟨[], [("copies", "1"), ("pattern", "fan_out")]⟩
             [("stdout.delimiter", "")]]) :=
  have h := (C16_nested_broker Example.inputs Example.outputs Example.brokered).1 rfl
    (by decide)
  have g := (C16_nested_broker Example.inputs Example.outputs Example.brokered).2 rfl
    (by decide)
  ⟨⟨h.1, h.2.2.1⟩, ⟨g.1, g.2.2.1⟩⟩

end config

/-! ## `AddCache` and `AddRatelimit` refine the key selection of the specification -/

namespace config

variable {F : Type}

/-- The candidates of the specification are the candidates of the loop, in the
order of the loop. -/
theorem candidates_eq : KeyedInserter.candidates = (List.range' 0 10000).map candidate := by
  unfold KeyedInserter.candidates
  have h1 : List.range' 0 10000 = 0 :: List.range' 1 9999 := List.range'_succ 0 9999 1
  have h0 : candidate 0 = "example" := rfl
  rw [h1, List.map_cons, h0]
  refine congrArg (List.cons "example") ?_
  apply List.map_congr_left
  intro i hi
  rw [List.mem_range'_1] at hi
  unfold candidate
  rw [if_neg (by omega)]

/-- The test `K.contains k` is membership in `K`. -/
theorem contains_iff (K : List String) (k : String) : K.contains k = true ↔ k ∈ K := by
  simp

/-- The lookup of `GoMap.has` is membership among the keys. -/
theorem has_eq_contains {V : Type} (m : GoMap V) (k : String) :
    m.has k = m.keys.contains k := by
  rw [Bool.eq_iff_iff, GoMap.has_iff_mem_keys, contains_iff]

/-- The loop returns the first candidate, from index `i` on, that is not a
key, and `""` when there is none among the next `n`. -/
theorem scanID_eq_find {V : Type} (m : GoMap V) :
    ∀ n i, scanID m n i
      = (((List.range' i n).map candidate).find? (fun c => !m.keys.contains c)).getD "" := by
  intro n
  induction n with
  | zero => intro i; rfl
  | succ n ih =>
    intro i
    have h1 : List.range' i (n + 1) = i :: List.range' (i + 1) n := List.range'_succ i n 1
    rw [h1, List.map_cons, List.find?_cons]
    simp only [scanID]
    cases hh : m.has (candidate i) with
    | true =>
      have hc : m.keys.contains (candidate i) = true := by rw [← has_eq_contains]; exact hh
      simp only [hc, if_true, Bool.not_true]
      exact ih (i + 1)
    | false =>
      have hc : m.keys.contains (candidate i) = false := by rw [← has_eq_contains]; exact hh
      simp only [hc, Bool.not_false, Bool.false_eq_true, if_false, Option.getD_some]

/-- The loop of `add.go` computes the key selection of the specification. -/
theorem scanID_eq_selectKey {V : Type} (m : GoMap V) :
    scanID m 10000 0 = (KeyedInserter.selectKey m.keys).getD "" := by
  rw [scanID_eq_find, KeyedInserter.selectKey, candidates_eq]

/-- A selected key is a candidate that is not a key yet. -/
theorem selectKey_some (K : List String) (k : String)
    (h : KeyedInserter.selectKey K = some k) :
    K.contains k = false ∧ ∃ j, j < 10000 ∧ k = candidate j := by
  unfold KeyedInserter.selectKey at h
  have h1 := List.find?_some h
  have h2 := List.mem_of_find?_eq_some h
  rw [candidates_eq, List.mem_map] at h2
  obtain ⟨j, hj, he⟩ := h2
  rw [List.mem_range'_1] at hj
  have h3 : (!K.contains k) = true := h1
  cases hc : K.contains k with
  | true => rw [hc] at h3; exact absurd h3 (by decide)
  | false => exact ⟨rfl, j, by omega, he.symm⟩

/-- The selection depends on the set of keys only. -/
theorem selectKey_congr (K1 K2 : List String) (h : ∀ k, k ∈ K1 ↔ k ∈ K2) :
    KeyedInserter.selectKey K1 = KeyedInserter.selectKey K2 := by
  unfold KeyedInserter.selectKey
  congr 1
  funext c
  congr 1
  rw [Bool.eq_iff_iff, contains_iff, contains_iff]
  exact h c

/-- With a registered type, `AddCache` is the key selection of the specification
followed by the insertion. -/
theorem AddCache_eq_select (p : cache.Pkg F) (T : String) (conf : Type_ F)
    (hT : T ∈ p.Constructors) :
    AddCache p T conf = match KeyedInserter.selectKey conf.Manager.Caches.keys with
      | none => ⟨some "what the hell are you doing?", conf⟩
      | some k => ⟨none, { conf with
          Manager := { conf.Manager with
            Caches := conf.Manager.Caches ++ [(k, { p.NewConfig with Type_ := T })] } }⟩ := by
  have hs := scanID_eq_selectKey conf.Manager.Caches
  unfold AddCache
  rw [if_neg (not_not.2 hT)]
  cases hk : KeyedInserter.selectKey conf.Manager.Caches.keys with
  | none =>
    rw [hk] at hs
    simp only [hs]
    rfl
  | some k =>
    rw [hk] at hs
    obtain ⟨hfree, j, _, hj⟩ := selectKey_some _ k hk
    rw [← has_eq_contains] at hfree
    simp only [hs, Option.getD_some]
    rw [if_neg (by rw [hj]; exact candidate_size j), GoMap.set_of_not_has _ _ _ hfree]

/-- With a registered type, `AddRatelimit` is the key selection of the
specification followed by the insertion. -/
theorem AddRatelimit_eq_select (p : ratelimit.Pkg F) (T : String) (conf : Type_ F)
    (hT : T ∈ p.Constructors) :
    AddRatelimit p T conf = match KeyedInserter.selectKey conf.Manager.RateLimits.keys with
      | none => ⟨some "what the hell are you doing?", conf⟩
      | some k => ⟨none, { conf with
          Manager := { conf.Manager with
            RateLimits :=
              conf.Manager.RateLimits ++ [(k, { p.NewConfig with Type_ := T })] } }⟩ := by
  have hs := scanID_eq_selectKey conf.Manager.RateLimits
  unfold AddRatelimit
  rw [if_neg (not_not.2 hT)]
  cases hk : KeyedInserter.selectKey conf.Manager.RateLimits.keys with
  | none =>
    rw [hk] at hs
    simp only [hs]
    rfl
  | some k =>
    rw [hk] at hs
    obtain ⟨hfree, j, _, hj⟩ := selectKey_some _ k hk
    rw [← has_eq_contains] at hfree
    simp only [hs, Option.getD_some]
    rw [if_neg (by rw [hj]; exact candidate_size j), GoMap.set_of_not_has _ _ _ hfree]

/-- C17 (`AddCache` and `AddRatelimit` are the same key assignment on different
mappings).  When the Caches mapping of a tree `c1` and the RateLimits mapping
of a tree `c2` have the same set of keys, `T1` is a registered cache type and
`T2` a registered rate-limit type, then either `AddCache T1` on `c1` and
`AddRatelimit T2` on `c2` both return the error `what the hell are you doing?`
and their tree as it was, or both return no error and add their declaration
under one and the same key.  That key is the one the key selection of the
specification gives for the keys of the mapping, which depends on the set of
keys only, neither on the type name nor on the declarations in the mapping;
the loop of both functions computes this selection. -/
theorem C17_same_key_assignment {F : Type} (kp : cache.Pkg F) (rp : ratelimit.Pkg F)
    (c1 c2 : Type_ F) (T1 T2 : String) (hT1 : T1 ∈ kp.Constructors)
    (hT2 : T2 ∈ rp.Constructors)
    (hK : ∀ k, k ∈ c1.Manager.Caches.keys ↔ k ∈ c2.Manager.RateLimits.keys) :
    ((KeyedInserter.selectKey c1.Manager.Caches.keys = none ∧
        AddCache kp T1 c1 = ⟨some "what the hell are you doing?", c1⟩ ∧
        AddRatelimit rp T2 c2 = ⟨some "what the hell are you doing?", c2⟩) ∨
      (∃ k, KeyedInserter.selectKey c1.Manager.Caches.keys = some k ∧
        AddCache kp T1 c1 = ⟨none, { c1 with
          Manager := { c1.Manager with
            Caches := c1.Manager.Caches ++ [(k, { kp.NewConfig with Type_ := T1 })] } }⟩ ∧
        AddRatelimit rp T2 c2 = ⟨none, { c2 with
          Manager := { c2.Manager with
            RateLimits :=
              c2.Manager.RateLimits ++ [(k, { rp.NewConfig with Type_ := T2 })] } }⟩)) ∧
    (∀ K1 K2 : List String, (∀ k, k ∈ K1 ↔ k ∈ K2) →
      KeyedInserter.selectKey K1 = KeyedInserter.selectKey K2) ∧
    scanID c1.Manager.Caches 10000 0
      = (KeyedInserter.selectKey c1.Manager.Caches.keys).getD "" ∧
    scanID c2.Manager.RateLimits 10000 0
      = (KeyedInserter.selectKey c2.Manager.RateLimits.keys).getD "" := by
  refine ⟨?_, selectKey_congr, scanID_eq_selectKey _, scanID_eq_selectKey _⟩
  have h1 := AddCache_eq_select kp T1 c1 hT1
  have h2 := AddRatelimit_eq_select rp T2 c2 hT2
  rw [← selectKey_congr _ _ hK] at h2
  cases hk : KeyedInserter.selectKey c1.Manager.Caches.keys with
  | none =>
    rw [hk] at h1 h2
    exact Or.inl ⟨rfl, h1, h2⟩
  | some k =>
    rw [hk] at h1 h2
    exact Or.inr ⟨k, rfl, h1, h2⟩

end config

namespace config

/-- C17 at `Example.keyed` and `Example.mirrored`, whose Caches and RateLimits
mappings both have the keys `example` and `example1`: both calls add their
declaration under `example2`. -/
theorem C17_same_key_assignment_witness :
    AddCache Example.caches "memcached" Example.keyed = ⟨none, { Example.keyed with
      Manager := { Example.keyed.Manager with
        Caches := Example.keyed.Manager.Caches
          ++ [("example2", ⟨"memcached", [("memory.ttl", "300")]⟩)] } }⟩ ∧
    AddRatelimit Example.ratelimits "local" Example.mirrored
      = ⟨none, { Example.mirrored with
        Manager := { Example.mirrored.Manager with
          RateLimits := Example.mirrored.Manager.RateLimits
            ++ [("example2", ⟨"local", [("local.count", "1000")]⟩)] } }⟩ := by
  have hsel : KeyedInserter.selectKey Example.keyed.Manager.Caches.keys = some "example2" := by
    decide
  have h := (C17_same_key_assignment Example.caches Example.ratelimits Example.keyed
    Example.mirrored "memcached" "local" (by decide) (by decide)
    (by intro k; simp [Example.keyed, Example.mirrored, GoMap.keys, or_comm])).1
  rcases h with ⟨hn, _, _⟩ | ⟨k, hk, h1, h2⟩
  · rw [hsel] at hn
    exact absurd hn (by simp)
  · rw [hsel] at hk
    have hk2 : k = "example2" := (Option.some.inj hk).symm
    subst hk2
    exact ⟨h1, h2⟩

end config
